import Mathlib

/-!
# Anonymous grading app: jury assignment and grade aggregation

A shallow embedding of the core logic of `src/app.js` (section 4 of the file,
the save-grade click handler of `renderJuryTasks`, and `renderProfessor`),
followed by theorems about it.

Modelling conventions.

* A JavaScript `Number` is a finite IEEE 754 double, held as its exact rational value
  (`ℚ`).  The operators `+`, `*` and `/` round the exact result to the nearest double,
  ties to even (`toDouble`); comparisons, `Math.max`, `Math.min`, `Math.round` and the
  truncation of an index are exact.  `NaN`, the infinities and results beyond the
  largest finite double are not values of the model; the one place where the source
  can meet `NaN`, the text typed into the grade input, is an `Option ℚ` whose `none`
  is `NaN`.
* `nowMs()` is a parameter `now`, `Math.random()` is a parameter `rnd` holding
  the outcome of `Math.floor(Math.random() * (i + 1))` for every loop index `i`,
  and `uid("g")` is a parameter `newId`.
* `String.prototype.toLowerCase` is a parameter `toLowerCase : String → String`;
  nothing is assumed about it.
* Objects mutated in place (`deliverable.juryUserIds = chosen`, `g.value = val`)
  become functions that return the updated record or list.
-/

namespace AnonGrading

/-! ## Data model (the comments of `loadDB`) -/

/-- A user record: id, username, role. -/
structure User where
  id : String
  username : String
  role : String
deriving DecidableEq, Repr

/-- A project record: id, title, teamUsernames, createdBy. -/
structure Project where
  id : String
  title : String
  teamUsernames : List String
  createdBy : String
deriving DecidableEq, Repr

/-- A deliverable record: id, projectId, title, dueAt, jurySize, editWindowMin, link,
juryUserIds. -/
structure Deliverable where
  id : String
  projectId : String
  title : String
  dueAt : ℚ
  jurySize : ℚ
  editWindowMin : ℚ
  link : String
  juryUserIds : List String
deriving DecidableEq, Repr

/-- A grade record: id, deliverableId, evaluatorId, value, createdAt, updatedAt. -/
structure Grade where
  id : String
  deliverableId : String
  evaluatorId : String
  value : ℚ
  createdAt : ℚ
  updatedAt : ℚ
deriving DecidableEq, Repr

/-- The session record: userId. -/
structure Session where
  userId : String
deriving DecidableEq, Repr

/-- The database document kept in localStorage. -/
structure DB where
  users : List User
  projects : List Project
  deliverables : List Deliverable
  grades : List Grade
  session : Option Session
deriving DecidableEq, Repr

/-! ## Numbers -/

/-- The integer nearest to `x`, the even one of the two when `x` is halfway. -/
def roundHalfEven (x : ℚ) : ℤ :=
  if x - (⌊x⌋ : ℤ) < 1 / 2 then ⌊x⌋
  else if 1 / 2 < x - (⌊x⌋ : ℤ) then ⌊x⌋ + 1
  else if ⌊x⌋ % 2 = 0 then ⌊x⌋ else ⌊x⌋ + 1

/-- The binary exponent of a double near `q`: the `e` with `2 ^ e ≤ |q| < 2 ^ (e + 1)`,
and `-1022` in the subnormal range. -/
def binaryExponent (q : ℚ) : ℤ :=
  max (Int.log 2 |q|) (-1022)

/-- The double nearest to `q`, ties to even: a multiple of `2 ^ (e - 52)` for the
binary exponent `e` of `q`. -/
def toDouble (q : ℚ) : ℚ :=
  (roundHalfEven (q / 2 ^ (binaryExponent q - 52)) : ℚ) * 2 ^ (binaryExponent q - 52)

/-- The operator `a + b` on Numbers. -/
def addDouble (a b : ℚ) : ℚ := toDouble (a + b)

/-- The operator `a * b` on Numbers. -/
def mulDouble (a b : ℚ) : ℚ := toDouble (a * b)

/-- The operator `a / b` on Numbers, for `b` not zero. -/
def divDouble (a b : ℚ) : ℚ := toDouble (a / b)

/-! ## Storage helpers -/

/-- The function `clamp2Decimals(num)`: `Math.round(num * 100) / 100`, where
`Math.round(x)` is the integer nearest to `x`, the upper one when halfway. -/
def clamp2Decimals (num : ℚ) : ℚ :=
  divDouble ((⌊mulDouble num 100 + 1 / 2⌋ : ℤ) : ℚ) 100

/-- The function `isValidGrade(x)`.  The text `x.toString()` is the shortest decimal that
reads back as `x`; between 1 and 10 it has at most two digits after the point exactly
when `x` is the double nearest to `k / 100` for an integer `k`, and that `k` can only
be the integer nearest to `x * 100`. -/
def isValidGrade (x : Option ℚ) : Bool :=
  match x with
  | none => false
  | some v =>
    if v < 1 ∨ v > 10 then false
    else decide (toDouble (((⌊v * 100 + 1 / 2⌋ : ℤ) : ℚ) / 100) = v)

/-- The function `byId(list, id)`: `list.find(x => x.id === id)`; `getId` reads the `id` field. -/
def byId {α : Type} (getId : α → String) (list : List α) (id : String) : Option α :=
  list.find? (fun x => getId x == id)

/-- The call `arr.slice(start, stop)` for indices `0 ≤ start`, `0 ≤ stop`. -/
def slice {α : Type} (arr : List α) (start stop : Nat) : List α :=
  (arr.take stop).drop start

/-- The integer a non-negative number denotes when used as an array index
(`ToIntegerOrInfinity` truncates). -/
def toIndex (x : ℚ) : Nat :=
  Int.toNat ⌊x⌋

/-! ## Session helpers -/

/-- The function `getCurrentUser(db)`. -/
def getCurrentUser (db : DB) : Option User :=
  match db.session with
  | none => none
  | some s => byId User.id db.users s.userId

/-! ## Core logic -/

/-- The function `isUserInTeam(project, username)`. -/
def isUserInTeam (toLowerCase : String → String) (project : Project) (username : String) :
    Bool :=
  project.teamUsernames.any (fun u => toLowerCase u == toLowerCase username)

/-- The function `eligibleEvaluatorsForDeliverable(db, deliverable)`. -/
def eligibleEvaluatorsForDeliverable (toLowerCase : String → String) (db : DB)
    (deliverable : Deliverable) : List User :=
  match byId Project.id db.projects deliverable.projectId with
  | none => []
  | some project =>
    db.users.filter (fun u =>
      if u.role != "student" then false
      else
        let inTeam := isUserInTeam toLowerCase project u.username
        !inTeam)

/-- The outcomes of `Math.floor(Math.random() * (i + 1))`, one for each loop index `i`:
an index between `0` and `i`. -/
abbrev Draws := (i : Nat) → Fin (i + 1)

/-- The destructuring swap `[a[i], a[j]] = [a[j], a[i]]` on in-range indices. -/
def swap {α : Type} (a : List α) (i j : Nat) : List α :=
  match a[i]?, a[j]? with
  | some x, some y => (a.set i y).set j x
  | _, _ => a

/-- The loop of `shuffle` from index `i` down to `1`. -/
def shuffleLoop {α : Type} (rnd : Draws) : Nat → List α → List α
  | 0, a => a
  | i + 1, a => shuffleLoop rnd i (swap a (i + 1) (rnd (i + 1)).val)

/-- The function `shuffle(arr)`: it works on a copy, so the result is a new list. -/
def shuffle {α : Type} (rnd : Draws) (arr : List α) : List α :=
  shuffleLoop rnd (arr.length - 1) arr

/-- The function `assignJuryIfDue(db, deliverable)`; the result is the deliverable after the call. -/
def assignJuryIfDue (toLowerCase : String → String) (rnd : Draws) (now : ℚ) (db : DB)
    (deliverable : Deliverable) : Deliverable :=
  if deliverable.juryUserIds.length > 0 then deliverable
  else if now < deliverable.dueAt then deliverable
  else
    let eligible := eligibleEvaluatorsForDeliverable toLowerCase db deliverable
    let wanted : ℚ := max 3 (if deliverable.jurySize = 0 then 3 else deliverable.jurySize)
    let chosen :=
      (slice (shuffle rnd eligible) 0 (toIndex (min wanted (eligible.length : ℚ)))).map User.id
    { deliverable with juryUserIds := chosen }

/-- The function `canEditGrade(deliverable)`. -/
def canEditGrade (now : ℚ) (deliverable : Deliverable) : Bool :=
  let stop :=
    addDouble deliverable.dueAt (mulDouble (mulDouble deliverable.editWindowMin 60) 1000)
  decide (now ≤ stop)

/-- The function `getGradesForDeliverable(db, deliverableId)`. -/
def getGradesForDeliverable (db : DB) (deliverableId : String) : List Grade :=
  db.grades.filter (fun g => g.deliverableId == deliverableId)

/-- The ascending sort `[...values].sort((a, b) => a - b)`. -/
def sortAscending (values : List ℚ) : List ℚ :=
  values.insertionSort (fun a b => a ≤ b)

/-- The function `computeFinalGradeFromValues(values)`; `none` is `null`. -/
def computeFinalGradeFromValues (values : List ℚ) : Option ℚ :=
  if values.length < 3 then none
  else
    let sorted := sortAscending values
    let trimmed := slice sorted 1 (sorted.length - 1)
    let avg := divDouble (trimmed.foldl (fun s x => addDouble s x) 0) (trimmed.length : ℚ)
    some (clamp2Decimals avg)

/-! ## The save-grade click handler of `renderJuryTasks` -/

/-- How a click on "Submit grade" / "Update grade" ends. -/
inductive SaveOutcome where
  | ignored
  | notJuror
  | editWindowClosed
  | invalidValue
  | saved
deriving DecidableEq, Repr

/-- Apply `f` to the first element satisfying `p` (the object `find` returns, mutated in
place). -/
def modifyFirst {α : Type} (p : α → Bool) (f : α → α) : List α → List α
  | [] => []
  | x :: xs => if p x then f x :: xs else x :: modifyFirst p f xs

/-- The handler `btn.onclick` of a save-grade button, up to and including `saveDB(db2)`:
the outcome and the stored database after the click.  `dId` is the button's deliverable
id and `inputValue` is `Number(input.value)`. -/
def saveGradeClick (db2 : DB) (dId : String) (inputValue : Option ℚ) (now : ℚ)
    (newId : String) : SaveOutcome × DB :=
  match getCurrentUser db2, byId Deliverable.id db2.deliverables dId with
  | some me, some d =>
    if !(d.juryUserIds.contains me.id) then (SaveOutcome.notJuror, db2)
    else if !(canEditGrade now d) then (SaveOutcome.editWindowClosed, db2)
    else
      let val := inputValue.map clamp2Decimals
      match val, isValidGrade val with
      | some v, true =>
        let mine := fun (x : Grade) => x.deliverableId == dId && x.evaluatorId == me.id
        match db2.grades.find? mine with
        | none =>
          let g : Grade :=
            { id := newId, deliverableId := dId, evaluatorId := me.id, value := v,
              createdAt := now, updatedAt := now }
          (SaveOutcome.saved, { db2 with grades := db2.grades ++ [g] })
        | some _ =>
          (SaveOutcome.saved,
            { db2 with grades :=
                modifyFirst mine (fun g => { g with value := v, updatedAt := now }) db2.grades })
      | _, _ => (SaveOutcome.invalidValue, db2)
  | _, _ => (SaveOutcome.ignored, db2)

/-! ## The supervisor view -/

/-- What `renderProfessor` prints for one deliverable. -/
structure DeliverableCard where
  title : String
  dueAt : ℚ
  gradeCount : Nat
  juryCount : Nat
  link : String
  values : List ℚ
  final : Option ℚ
deriving DecidableEq, Repr

/-- What `renderProfessor` prints for one project. -/
structure ProjectCard where
  title : String
  team : List String
  cards : List DeliverableCard
deriving DecidableEq, Repr

/-- The body of `dels.map(d => ...)` in `renderProfessor`. -/
def renderDeliverable (toLowerCase : String → String) (rnd : Draws) (now : ℚ) (db : DB)
    (d0 : Deliverable) : DeliverableCard :=
  let d := assignJuryIfDue toLowerCase rnd now db d0
  let grades := getGradesForDeliverable db d.id
  let values := grades.map (fun g => g.value)
  let final := computeFinalGradeFromValues values
  { title := d.title, dueAt := d.dueAt, gradeCount := values.length,
    juryCount := d.juryUserIds.length, link := d.link, values := values, final := final }

/-- The function `renderProfessor(db)`: the data written to the page.  `rnd p d` are the draws of the
call `assignJuryIfDue(db, d)` made under project `p`. -/
def renderProfessor (toLowerCase : String → String) (rnd : Project → Deliverable → Draws)
    (now : ℚ) (db : DB) : List ProjectCard :=
  db.projects.map (fun p =>
    let dels := db.deliverables.filter (fun d => d.projectId == p.id)
    { title := p.title, team := p.teamUsernames,
      cards := dels.map (fun d => renderDeliverable toLowerCase (rnd p d) now db d) })

/-! ## Specification vocabulary and sample data -/

/-- A batch of later calls of `assignJuryIfDue` on one deliverable: each call has its own
random draws, its own clock reading and its own database (users, projects and teams may
have changed in between). -/
structure Observation where
  rnd : Draws
  now : ℚ
  db : DB

/-- The deliverable after a sequence of calls of `assignJuryIfDue`. -/
def observe (toLowerCase : String → String) (d : Deliverable) (calls : List Observation) :
    Deliverable :=
  calls.foldl (fun acc c => assignJuryIfDue toLowerCase c.rnd c.now c.db acc) d

/-- The spec's wording of eligibility: a student whose username is not, compared
case-insensitively, a member of the project's team. -/
def IsStudentOutsideTeam (toLowerCase : String → String) (project : Project) (u : User) :
    Prop :=
  u.role = "student" ∧ ∀ t ∈ project.teamUsernames, toLowerCase t ≠ toLowerCase u.username

instance (toLowerCase : String → String) (project : Project) (u : User) :
    Decidable (IsStudentOutsideTeam toLowerCase project u) := by
  unfold IsStudentOutsideTeam
  exact inferInstance

/-- The value of the local `end` of `canEditGrade`: the deadline as the code computes
it. -/
def editWindowEnd (d : Deliverable) : ℚ :=
  addDouble d.dueAt (mulDouble (mulDouble d.editWindowMin 60) 1000)

/-- A stand-in for `toLowerCase` on the sample usernames. -/
def sampleLower (s : String) : String :=
  if s = "Ana" then "ana" else if s = "Bob" then "bob" else s

/-- Draws that always pick index `0`. -/
def zeroDraws : Draws := fun _ => ⟨0, Nat.succ_pos _⟩

/-- Five registered users: four students and a supervisor. -/
def sampleUsers : List User :=
  [ { id := "u1", username := "ana", role := "student" },
    { id := "u2", username := "bob", role := "student" },
    { id := "u3", username := "cid", role := "student" },
    { id := "u4", username := "dan", role := "student" },
    { id := "u5", username := "eve", role := "supervisor" } ]

/-- A project owned by the team of `Ana`. -/
def sampleProject : Project :=
  { id := "p1", title := "Compiler", teamUsernames := ["Ana"], createdBy := "u1" }

/-- A deliverable of the sample project, due at instant 1000, jury not yet drawn. -/
def sampleDeliverable : Deliverable :=
  { id := "d1", projectId := "p1", title := "Demo", dueAt := 1000, jurySize := 3,
    editWindowMin := 10, link := "", juryUserIds := [] }

/-- The sample database, nobody logged in. -/
def sampleDb : DB :=
  { users := sampleUsers, projects := [sampleProject], deliverables := [sampleDeliverable],
    grades := [], session := none }

/-- A deliverable of another project, asking for a jury of three. -/
def smallDeliverable : Deliverable :=
  { id := "d2", projectId := "p2", title := "Report", dueAt := 1000, jurySize := 3,
    editWindowMin := 10, link := "", juryUserIds := [] }

/-- A database with four students, two of them in the team of the only project. -/
def smallDb : DB :=
  { users := sampleUsers.take 4,
    projects := [{ id := "p2", title := "Parser", teamUsernames := ["Ana", "Bob"],
                   createdBy := "u1" }],
    deliverables := [smallDeliverable], grades := [], session := none }

/-- The spec's invariant on the ledger: at most one grade per (deliverable, evaluator)
pair. -/
def GradesUnique (db : DB) : Prop :=
  (db.grades.map (fun g => (g.deliverableId, g.evaluatorId))).Nodup

/-- The test `x.deliverableId === dId && x.evaluatorId === me.id` of the handler. -/
def isGradeOf (dId : String) (evaluatorId : String) (x : Grade) : Bool :=
  x.deliverableId == dId && x.evaluatorId == evaluatorId

/-- The sample deliverable with its jury drawn: bob, cid and dan. -/
def juriedDeliverable : Deliverable :=
  { sampleDeliverable with juryUserIds := ["u2", "u3", "u4"] }

/-- The user record of bob. -/
def bob : User := { id := "u2", username := "bob", role := "student" }

/-- The user record of ana, a member of the owning team. -/
def ana : User := { id := "u1", username := "ana", role := "student" }

/-- A ledger in which cid has graded the deliverable and bob is logged in. -/
def ledgerDb : DB :=
  { users := sampleUsers, projects := [sampleProject], deliverables := [juriedDeliverable],
    grades := [{ id := "g1", deliverableId := "d1", evaluatorId := "u3", value := 8,
                 createdAt := 1500, updatedAt := 1500 }],
    session := some { userId := "u2" } }

/-- The same ledger with cid, who has already graded, logged in. -/
def graderDb : DB :=
  { ledgerDb with session := some { userId := "u3" } }

/-- The same ledger with ana, who is not a juror, logged in. -/
def outsiderDb : DB :=
  { ledgerDb with session := some { userId := "u1" } }

/-- Two grade records that agree on everything but the evaluator. -/
def SameButEvaluator (g1 g2 : Grade) : Prop :=
  g1.id = g2.id ∧ g1.deliverableId = g2.deliverableId ∧ g1.value = g2.value ∧
    g1.createdAt = g2.createdAt ∧ g1.updatedAt = g2.updatedAt

/-- Two deliverable records that agree on everything but which user ids make up the jury,
the two juries having the same number of members. -/
def SameButJurors (d1 d2 : Deliverable) : Prop :=
  d1.id = d2.id ∧ d1.projectId = d2.projectId ∧ d1.title = d2.title ∧ d1.dueAt = d2.dueAt ∧
    d1.jurySize = d2.jurySize ∧ d1.editWindowMin = d2.editWindowMin ∧ d1.link = d2.link ∧
    d1.juryUserIds.length = d2.juryUserIds.length

/-- Two databases that differ only in the evaluator of each grade and in the members (not
the size) of each jury. -/
def SameButIdentities (db1 db2 : DB) : Prop :=
  db1.users = db2.users ∧ db1.projects = db2.projects ∧ db1.session = db2.session ∧
    List.Forall₂ SameButJurors db1.deliverables db2.deliverables ∧
    List.Forall₂ SameButEvaluator db1.grades db2.grades

/-- Draws that always pick the top index `i`. -/
def lastDraws : Draws := fun i => Fin.last i

/-- Seven registered users: six students and a supervisor. -/
def wideUsers : List User :=
  sampleUsers ++
    [ { id := "u6", username := "fay", role := "student" },
      { id := "u7", username := "gus", role := "student" } ]

/-- A deliverable created with the jury size 4.5 typed into the form (the form accepts
any finite number that is at least 3). -/
def fractionalDeliverable : Deliverable :=
  { id := "d3", projectId := "p1", title := "Poster", dueAt := 1000, jurySize := 9 / 2,
    editWindowMin := 10, link := "", juryUserIds := [] }

/-- A database in which the pool of the fractional deliverable has five students. -/
def wideDb : DB :=
  { users := wideUsers, projects := [sampleProject], deliverables := [fractionalDeliverable],
    grades := [], session := none }

/-- Four grades with two decimals; `1.01` is the double the text denotes. -/
def halfCentValues : List ℚ := [1, 1, toDouble (101 / 100), 10]

/-- A deliverable due at 1700000000000 with the edit window 1.999999999 minutes typed
into the form, and its jury drawn. -/
def tightDeliverable : Deliverable :=
  { id := "d1", projectId := "p1", title := "Demo", dueAt := 1700000000000, jurySize := 3,
    editWindowMin := toDouble (1999999999 / 1000000000), link := "",
    juryUserIds := ["u2", "u3", "u4"] }

/-- A ledger holding the tight deliverable, bob logged in. -/
def tightDb : DB :=
  { users := sampleUsers, projects := [sampleProject], deliverables := [tightDeliverable],
    grades := [], session := some { userId := "u2" } }

/-- The scenario of the spec: grades 4, 9, 5 from jurors bob, cid, dan. -/
def viewDbA : DB :=
  { users := sampleUsers, projects := [sampleProject], deliverables := [juriedDeliverable],
    grades :=
      [ { id := "g1", deliverableId := "d1", evaluatorId := "u2", value := 4,
          createdAt := 1500, updatedAt := 1500 },
        { id := "g2", deliverableId := "d1", evaluatorId := "u3", value := 9,
          createdAt := 1600, updatedAt := 1600 },
        { id := "g3", deliverableId := "d1", evaluatorId := "u4", value := 5,
          createdAt := 1700, updatedAt := 1700 } ],
    session := some { userId := "u5" } }

/-- The same scenario with the jurors behind the three values exchanged and the jury
listed in another order. -/
def viewDbB : DB :=
  { users := sampleUsers, projects := [sampleProject],
    deliverables := [{ sampleDeliverable with juryUserIds := ["u4", "u2", "u3"] }],
    grades :=
      [ { id := "g1", deliverableId := "d1", evaluatorId := "u4", value := 4,
          createdAt := 1500, updatedAt := 1500 },
        { id := "g2", deliverableId := "d1", evaluatorId := "u2", value := 9,
          createdAt := 1600, updatedAt := 1600 },
        { id := "g3", deliverableId := "d1", evaluatorId := "u3", value := 5,
          createdAt := 1700, updatedAt := 1700 } ],
    session := some { userId := "u5" } }

/-- The draws one run of `shuffle` consumes on an array of length `n`: for each loop
index `i = k + 1`, `k < n - 1`, an index between `0` and `i`. -/
abbrev DrawSeq (n : Nat) := (k : Fin (n - 1)) → Fin (k.val + 2)

/-- The draw sequence as a `Draws` (index `0` where the loop does not draw). -/
def DrawSeq.toDraws {n : Nat} (s : DrawSeq n) : Draws := fun i =>
  match i with
  | 0 => ⟨0, Nat.succ_pos 0⟩
  | k + 1 => if h : k < n - 1 then s ⟨k, h⟩ else ⟨0, Nat.succ_pos (k + 1)⟩

/-- The draws a run on an array of length `n` consumes, out of `rnd`. -/
def DrawSeq.ofDraws (n : Nat) (rnd : Draws) : DrawSeq n := fun k => rnd (k.val + 1)

/-! ## Number arithmetic -/



theorem roundHalfEven_of_lt (x : ℚ) (m : ℤ) (h1 : (m : ℚ) - 1 / 2 < x)
    (h2 : x < (m : ℚ) + 1 / 2) : roundHalfEven x = m := by
  unfold roundHalfEven
  by_cases hx : (m : ℚ) ≤ x
  · have hf : ⌊x⌋ = m := by
      rw [Int.floor_eq_iff]
      constructor
      · exact hx
      · linarith
    rw [hf, if_pos (by linarith)]
  · have hx2 : x < (m : ℚ) := not_le.mp hx
    have hf : ⌊x⌋ = m - 1 := by
      rw [Int.floor_eq_iff]
      push_cast
      constructor <;> linarith
    rw [hf]
    push_cast
    rw [if_neg (by linarith), if_pos (by linarith)]
    ring

theorem roundHalfEven_tie (x : ℚ) (m : ℤ) (h : x = (m : ℚ) + 1 / 2) :
    roundHalfEven x = if m % 2 = 0 then m else m + 1 := by
  unfold roundHalfEven
  have hf : ⌊x⌋ = m := by
    rw [Int.floor_eq_iff]
    constructor <;> linarith
  rw [hf, h, if_neg (by linarith), if_neg (by linarith)]

theorem roundHalfEven_intCast (m : ℤ) : roundHalfEven (m : ℚ) = m :=
  roundHalfEven_of_lt _ m (by linarith) (by linarith)

theorem abs_roundHalfEven_sub_le (x : ℚ) : |(roundHalfEven x : ℚ) - x| ≤ 1 / 2 := by
  have h1 := Int.floor_le x
  have h2 := Int.lt_floor_add_one x
  unfold roundHalfEven
  rw [abs_le]
  split
  · constructor <;> linarith
  · split
    · push_cast
      constructor <;> linarith
    · split
      · constructor <;> linarith
      · push_cast
        constructor <;> linarith

theorem binaryExponent_eq (q : ℚ) (e : ℤ) (he : -1022 ≤ e) (h1 : (2 : ℚ) ^ e ≤ |q|)
    (h2 : |q| < (2 : ℚ) ^ (e + 1)) : binaryExponent q = e := by
  have hpos : 0 < |q| := lt_of_lt_of_le (zpow_pos (by norm_num) e) h1
  have hle : e ≤ Int.log 2 |q| :=
    (Int.zpow_le_iff_le_log (by norm_num) hpos).mp (by exact_mod_cast h1)
  have hlt : Int.log 2 |q| < e + 1 :=
    (Int.lt_zpow_iff_log_lt (by norm_num) hpos).mp (by exact_mod_cast h2)
  unfold binaryExponent
  omega

theorem toDouble_eq (q : ℚ) (e m : ℤ) (he : -1022 ≤ e) (h1 : (2 : ℚ) ^ e ≤ |q|)
    (h2 : |q| < (2 : ℚ) ^ (e + 1)) (hm : roundHalfEven (q / 2 ^ (e - 52)) = m) :
    toDouble q = (m : ℚ) * 2 ^ (e - 52) := by
  unfold toDouble
  rw [binaryExponent_eq q e he h1 h2, hm]



theorem abs_toDouble_sub_le (q : ℚ) :
    |toDouble q - q| ≤ (2 : ℚ) ^ (binaryExponent q - 53) := by
  have hu : (0 : ℚ) < 2 ^ (binaryExponent q - 52) := zpow_pos (by norm_num) _
  have hsplit : (2 : ℚ) ^ (binaryExponent q - 52) = 2 * 2 ^ (binaryExponent q - 53) := by
    rw [show binaryExponent q - 52 = (binaryExponent q - 53) + 1 by ring,
      zpow_add_one₀ (by norm_num : (2 : ℚ) ≠ 0)]
    ring
  have hr := abs_roundHalfEven_sub_le (q / 2 ^ (binaryExponent q - 52))
  have heq : toDouble q - q
      = ((roundHalfEven (q / 2 ^ (binaryExponent q - 52)) : ℚ)
          - q / 2 ^ (binaryExponent q - 52)) * 2 ^ (binaryExponent q - 52) := by
    unfold toDouble
    field_simp
  rw [heq, abs_mul, abs_of_pos hu]
  calc |(roundHalfEven (q / 2 ^ (binaryExponent q - 52)) : ℚ)
          - q / 2 ^ (binaryExponent q - 52)| * 2 ^ (binaryExponent q - 52)
      ≤ 1 / 2 * 2 ^ (binaryExponent q - 52) := mul_le_mul_of_nonneg_right hr (le_of_lt hu)
    _ = 2 ^ (binaryExponent q - 53) := by rw [hsplit]; ring

theorem binaryExponent_le (q : ℚ) (E : ℤ) (hE : 0 ≤ E) (h : |q| < (2 : ℚ) ^ (E + 1)) :
    binaryExponent q ≤ E := by
  unfold binaryExponent
  rcases (abs_nonneg q).eq_or_lt with h0 | hpos
  · rw [← h0, Int.log_zero_right]
    omega
  · have hlt : Int.log 2 |q| < E + 1 :=
      (Int.lt_zpow_iff_log_lt (by norm_num) hpos).mp (by exact_mod_cast h)
    omega

theorem abs_toDouble_sub_le_of_lt (q : ℚ) (E : ℤ) (hE : 0 ≤ E) (h : |q| < (2 : ℚ) ^ (E + 1)) :
    |toDouble q - q| ≤ (2 : ℚ) ^ (E - 53) :=
  le_trans (abs_toDouble_sub_le q)
    (zpow_le_zpow_right₀ (by norm_num) (by have := binaryExponent_le q E hE h; omega))

theorem toDouble_zero : toDouble 0 = 0 := by
  unfold toDouble
  rw [zero_div]
  have : roundHalfEven (0 : ℚ) = 0 := by
    have := roundHalfEven_intCast 0
    simpa using this
  rw [this]
  simp

theorem toDouble_intCast (n : ℤ) (h : |n| < 2 ^ 53) : toDouble (n : ℚ) = n := by
  by_cases hn : n = 0
  · rw [hn]
    simpa using toDouble_zero
  · have habs : (1 : ℚ) ≤ |(n : ℚ)| := by
      have : (1 : ℤ) ≤ |n| := Int.one_le_abs hn
      exact_mod_cast this
    have hpos : (0 : ℚ) < |(n : ℚ)| := by linarith
    have hlt : |(n : ℚ)| < (2 : ℚ) ^ ((52 : ℤ) + 1) := by
      have : ((|n| : ℤ) : ℚ) < ((2 ^ 53 : ℤ) : ℚ) := by exact_mod_cast h
      rw [Int.cast_abs] at this
      norm_num at this ⊢
      exact this
    have hE1 : binaryExponent (n : ℚ) ≤ 52 := binaryExponent_le _ 52 (by norm_num) hlt
    have hE0 : 0 ≤ binaryExponent (n : ℚ) := by
      have : (0 : ℤ) ≤ Int.log 2 |(n : ℚ)| :=
        (Int.zpow_le_iff_le_log (by norm_num) hpos).mp (by simpa using habs)
      unfold binaryExponent
      omega
    unfold toDouble
    generalize binaryExponent (n : ℚ) = E at hE0 hE1
    obtain ⟨k, hk⟩ : ∃ k : ℕ, (k : ℤ) = 52 - E := ⟨(52 - E).toNat, by omega⟩
    have hpow : (2 : ℚ) ^ (E - 52) = ((2 : ℚ) ^ k)⁻¹ := by
      rw [show E - 52 = -(k : ℤ) by omega, zpow_neg, zpow_natCast]
    rw [hpow]
    have hint : (n : ℚ) / ((2 : ℚ) ^ k)⁻¹ = ((n * 2 ^ k : ℤ) : ℚ) := by
      push_cast
      field_simp
    rw [hint, roundHalfEven_intCast]
    push_cast
    field_simp

theorem toDouble_natCast (n : ℕ) (h : n < 2 ^ 53) : toDouble (n : ℚ) = n := by
  have := toDouble_intCast (n : ℤ) (by rw [abs_of_nonneg (Int.natCast_nonneg n)]; exact_mod_cast h)
  simpa using this


theorem toDouble_one : toDouble 1 = 1 := by
  simpa using toDouble_natCast 1 (by norm_num)

theorem toDouble_half_cent : toDouble (101 / 100) = 4548635623644201 / 4503599627370496 := by
  rw [toDouble_eq (101 / 100) 0 4548635623644201 (by norm_num) (by norm_num [abs_of_pos])
    (by norm_num [abs_of_pos]) (roundHalfEven_of_lt _ _ (by norm_num) (by norm_num))]
  norm_num

/-! ## Aggregation -/

theorem slice_middle (lo hi : ℚ) (mid : List ℚ) :
    slice (lo :: (mid ++ [hi])) 1 ((lo :: (mid ++ [hi])).length - 1) = mid := by
  simp [slice]

theorem sorted_decompose (s : List ℚ) (h : 2 ≤ s.length) :
    ∃ lo hi mid, s = lo :: (mid ++ [hi]) := by
  match s, h with
  | lo :: t, h =>
    have ht : t ≠ [] := by
      intro h0
      simp [h0] at h
    exact ⟨lo, t.getLast ht, t.dropLast, by rw [List.dropLast_append_getLast]⟩

theorem trimmed_mean_general (values : List ℚ) :
    (values.length < 3 ∧ computeFinalGradeFromValues values = none) ∨
      (3 ≤ values.length ∧ ∃ lo hi rest,
        sortAscending values = lo :: (rest ++ [hi]) ∧ values.Perm (lo :: hi :: rest) ∧
        (∀ v ∈ values, lo ≤ v ∧ v ≤ hi) ∧ rest.length + 2 = values.length ∧
        computeFinalGradeFromValues values
          = some (clamp2Decimals
              (divDouble (rest.foldl (fun s x => addDouble s x) 0) (rest.length : ℚ)))) := by
  by_cases h : values.length < 3
  · left
    exact ⟨h, by simp [computeFinalGradeFromValues, h]⟩
  · right
    have hlen : (sortAscending values).length = values.length := by
      simp [sortAscending]
    have hperm : (sortAscending values).Perm values := List.perm_insertionSort _ values
    have hsorted : (sortAscending values).Sorted (fun a b => a ≤ b) :=
      List.sorted_insertionSort _ values
    obtain ⟨lo, hi, mid, hs⟩ := sorted_decompose (sortAscending values) (by omega)
    have hp2 : (lo :: (mid ++ [hi])).Perm (lo :: hi :: mid) := by
      refine List.Perm.cons lo ?_
      exact (List.perm_append_comm : (mid ++ [hi]).Perm ([hi] ++ mid))
    refine ⟨by omega, lo, hi, mid, hs, ?_, ?_, ?_, ?_⟩
    · exact hperm.symm.trans (hs ▸ hp2)
    · intro v hv
      have hv2 : v ∈ lo :: (mid ++ [hi]) := hs ▸ (hperm.symm.subset hv)
      rw [hs] at hsorted
      have hrel := List.sorted_cons.mp hsorted
      have hpw : (mid ++ [hi]).Pairwise (fun a b => a ≤ b) := hrel.2
      rw [List.pairwise_append] at hpw
      constructor
      · rcases List.mem_cons.mp hv2 with h1 | h1
        · exact le_of_eq h1.symm
        · exact hrel.1 v h1
      · rcases List.mem_cons.mp hv2 with h1 | h1
        · rw [h1]
          exact hrel.1 hi (by simp)
        · rcases List.mem_append.mp h1 with h2 | h2
          · exact hpw.2.2 v h2 hi (by simp)
          · simp at h2
            exact le_of_eq h2
    · have := congrArg List.length hs
      simp at this
      omega
    · simp only [computeFinalGradeFromValues, h, if_false]
      rw [hs, slice_middle]

theorem half_cent_sum :
    addDouble 1 (4548635623644201 / 4503599627370496)
      = 1131529406376837 / 562949953421312 := by
  unfold addDouble
  rw [toDouble_eq _ 1 4526117625507348 (by norm_num) (by norm_num [abs_of_pos])
    (by norm_num [abs_of_pos])
    (by rw [roundHalfEven_tie _ 4526117625507348 (by norm_num)]; decide)]
  norm_num

theorem half_cent_mean :
    divDouble (1131529406376837 / 562949953421312) 2
      = 1131529406376837 / 1125899906842624 := by
  unfold divDouble
  rw [toDouble_eq _ 0 4526117625507348 (by norm_num) (by norm_num [abs_of_pos])
    (by norm_num [abs_of_pos]) (roundHalfEven_of_lt _ _ (by norm_num) (by norm_num))]
  norm_num

theorem half_cent_scaled :
    mulDouble (1131529406376837 / 1125899906842624) 100
      = 7072058789855231 / 70368744177664 := by
  unfold mulDouble
  rw [toDouble_eq _ 6 7072058789855231 (by norm_num) (by norm_num [abs_of_pos])
    (by norm_num [abs_of_pos]) (roundHalfEven_of_lt _ _ (by norm_num) (by norm_num))]
  norm_num

theorem half_cent_clamped :
    clamp2Decimals (1131529406376837 / 1125899906842624) = 1 := by
  unfold clamp2Decimals
  rw [half_cent_scaled]
  have hfl : ⌊(7072058789855231 / 70368744177664 : ℚ) + 1 / 2⌋ = 100 := by
    rw [Int.floor_eq_iff]
    constructor <;> norm_num
  rw [hfl]
  unfold divDouble
  norm_num
  exact toDouble_one

theorem toDouble_six_and_half : toDouble (13 / 2) = 13 / 2 := by
  rw [toDouble_eq (13 / 2) 2 7318349394477056 (by norm_num) (by norm_num [abs_of_pos])
    (by norm_num [abs_of_pos]) (roundHalfEven_of_lt _ _ (by norm_num) (by norm_num))]
  norm_num

theorem trimmed_mean_scenarios :
    computeFinalGradeFromValues [6, 7, 10, 2] = some (13 / 2) ∧
      computeFinalGradeFromValues [5] = none := by
  have h6 : toDouble (6 : ℚ) = 6 := by
    simpa using toDouble_natCast 6 (by norm_num)
  have h13 : toDouble (13 : ℚ) = 13 := by
    simpa using toDouble_natCast 13 (by norm_num)
  have h650 : toDouble (650 : ℚ) = 650 := by
    simpa using toDouble_natCast 650 (by norm_num)
  have hfl : ⌊(650 : ℚ) + 1 / 2⌋ = 650 := by
    rw [Int.floor_eq_iff]
    constructor <;> norm_num
  have hsort : sortAscending [6, 7, 10, 2] = [2, 6, 7, 10] := by
    norm_num [sortAscending, List.insertionSort, List.orderedInsert]
  constructor
  · unfold computeFinalGradeFromValues
    rw [if_neg (by simp), hsort]
    simp only [slice, List.length_cons, List.length_nil, List.take, List.drop,
      List.foldl_cons, List.foldl_nil, addDouble, divDouble, clamp2Decimals, mulDouble]
    norm_num [h6, h13, h650, hfl, toDouble_six_and_half]
  · simp [computeFinalGradeFromValues]

/-- C1, the code at the failing input: for the grades 1, 1, 1.01, 10 the values left after
dropping one lowest and one highest are 1 and 1.01, whose mean rounds to 1.01 at two
decimals, and `computeFinalGradeFromValues` returns 1. -/
theorem computeFinalGradeFromValues_half_cent :
    computeFinalGradeFromValues halfCentValues = some 1 ∧
      sortAscending halfCentValues = [1, 1, toDouble (101 / 100), 10] ∧
      ((⌊(1 + toDouble (101 / 100)) / 2 * 100 + 1 / 2⌋ : ℤ) : ℚ) / 100 = 101 / 100 := by
  have hsort : sortAscending halfCentValues = [1, 1, toDouble (101 / 100), 10] := by
    unfold halfCentValues sortAscending
    rw [toDouble_half_cent]
    norm_num [List.insertionSort, List.orderedInsert]
  refine ⟨?_, hsort, ?_⟩
  · have hlen : ¬ halfCentValues.length < 3 := by
      simp [halfCentValues]
    unfold computeFinalGradeFromValues
    rw [if_neg hlen, hsort, toDouble_half_cent]
    have hz : addDouble 0 1 = 1 := by
      unfold addDouble
      norm_num
      exact toDouble_one
    simp only [slice, List.length_cons, List.length_nil, List.take, List.drop,
      List.foldl_cons, List.foldl_nil, hz, half_cent_sum]
    norm_num
    rw [half_cent_mean, half_cent_clamped]
  · rw [toDouble_half_cent]
    have hfl : ⌊((1 : ℚ) + 4548635623644201 / 4503599627370496) / 2 * 100 + 1 / 2⌋ = 101 := by
      rw [Int.floor_eq_iff]
      constructor <;> norm_num
    rw [hfl]
    norm_num

/-! ## Shuffle -/

theorem length_swap {α : Type} (a : List α) (i j : Nat) : (swap a i j).length = a.length := by
  unfold swap
  split <;> simp

theorem swap_eq_set {α : Type} (a : List α) (i j : Nat) (hi : i < a.length)
    (hj : j < a.length) : swap a i j = (a.set i a[j]).set j a[i] := by
  unfold swap
  simp [List.getElem?_eq_getElem hi, List.getElem?_eq_getElem hj]

theorem swap_perm {α : Type} (a : List α) (i j : Nat) : (swap a i j).Perm a := by
  classical
  by_cases hi : i < a.length
  · by_cases hj : j < a.length
    · rw [swap_eq_set a i j hi hj, List.perm_iff_count]
      intro b
      have hj2 : j < (a.set i a[j]).length := by simpa using hj
      rw [List.count_set _ _ _ _ hj2, List.count_set _ _ _ _ hi]
      have h1 : (a.set i a[j])[j] = a[j] := by
        rw [List.getElem_set]
        split
        · rfl
        · rfl
      rw [h1]
      have h2 : (if a[i] == b then 1 else 0) ≤ a.count b := by
        split
        · rename_i h
          have : a[i] = b := by simpa using h
          rw [← this]
          exact List.count_pos_iff.mpr (List.getElem_mem hi)
        · exact Nat.zero_le _
      omega
    · unfold swap
      simp [List.getElem?_eq_none (Nat.le_of_not_lt hj)]
  · unfold swap
    simp [List.getElem?_eq_none (Nat.le_of_not_lt hi)]

theorem shuffleLoop_perm {α : Type} (rnd : Draws) (i : Nat) (a : List α) :
    (shuffleLoop rnd i a).Perm a := by
  induction i generalizing a with
  | zero => exact List.Perm.refl a
  | succ i ih => exact (ih _).trans (swap_perm a _ _)

theorem shuffle_perm {α : Type} (rnd : Draws) (arr : List α) : (shuffle rnd arr).Perm arr :=
  shuffleLoop_perm rnd _ arr

theorem shuffle_length {α : Type} (rnd : Draws) (arr : List α) :
    (shuffle rnd arr).length = arr.length :=
  (shuffle_perm rnd arr).length_eq

/-! ## Eligibility -/

theorem eligible_filter_iff (toLowerCase : String → String) (project : Project) (u : User) :
    (if u.role != "student" then false
      else
        let inTeam := isUserInTeam toLowerCase project u.username
        !inTeam) = true ↔ IsStudentOutsideTeam toLowerCase project u := by
  unfold IsStudentOutsideTeam isUserInTeam
  by_cases h : u.role = "student"
  · simp [h]
  · simp [h]

theorem eligible_eq_filter (toLowerCase : String → String) (db : DB) (d : Deliverable)
    (project : Project) (hp : byId Project.id db.projects d.projectId = some project) :
    eligibleEvaluatorsForDeliverable toLowerCase db d
      = db.users.filter (fun u => decide (IsStudentOutsideTeam toLowerCase project u)) := by
  unfold eligibleEvaluatorsForDeliverable
  rw [hp]
  apply List.filter_congr
  intro u _
  by_cases h : IsStudentOutsideTeam toLowerCase project u
  · simp only [h, decide_True]
    exact (eligible_filter_iff toLowerCase project u).mpr h
  · simp only [h, decide_False]
    exact Bool.eq_false_iff.mpr (fun h2 => h ((eligible_filter_iff toLowerCase project u).mp h2))

theorem eligible_sublist (toLowerCase : String → String) (db : DB) (d : Deliverable) :
    (eligibleEvaluatorsForDeliverable toLowerCase db d).Sublist db.users := by
  unfold eligibleEvaluatorsForDeliverable
  split
  · exact List.nil_sublist _
  · exact List.filter_sublist _

theorem mem_eligible (toLowerCase : String → String) (db : DB) (d : Deliverable) (u : User)
    (hu : u ∈ eligibleEvaluatorsForDeliverable toLowerCase db d) :
    u ∈ db.users ∧ ∃ project, byId Project.id db.projects d.projectId = some project ∧
      IsStudentOutsideTeam toLowerCase project u := by
  cases hp : byId Project.id db.projects d.projectId with
  | none =>
    unfold eligibleEvaluatorsForDeliverable at hu
    rw [hp] at hu
    simp at hu
  | some project =>
    rw [eligible_eq_filter toLowerCase db d project hp] at hu
    have := List.mem_filter.mp hu
    exact ⟨this.1, project, rfl, by simpa using this.2⟩

/-! ## Jury assignment -/

theorem assignJuryIfDue_noop (toLowerCase : String → String) (rnd : Draws) (now : ℚ) (db : DB)
    (d : Deliverable) (h : d.juryUserIds ≠ [] ∨ now < d.dueAt) :
    assignJuryIfDue toLowerCase rnd now db d = d := by
  unfold assignJuryIfDue
  rcases h with h | h
  · have : d.juryUserIds.length > 0 := List.length_pos.mpr h
    simp [this]
  · simp [h]

theorem assignJuryIfDue_due (toLowerCase : String → String) (rnd : Draws) (now : ℚ) (db : DB)
    (d : Deliverable) (hempty : d.juryUserIds = []) (hdue : d.dueAt ≤ now) :
    assignJuryIfDue toLowerCase rnd now db d =
      { d with juryUserIds :=
          ((shuffle rnd (eligibleEvaluatorsForDeliverable toLowerCase db d)).take
            (toIndex (min (max 3 d.jurySize)
              ((eligibleEvaluatorsForDeliverable toLowerCase db d).length : ℚ)))).map User.id } := by
  unfold assignJuryIfDue
  have h1 : ¬ d.juryUserIds.length > 0 := by simp [hempty]
  have h2 : ¬ now < d.dueAt := not_lt.mpr hdue
  have h3 : max (3 : ℚ) (if d.jurySize = 0 then 3 else d.jurySize) = max 3 d.jurySize := by
    split
    · rename_i h0
      rw [h0]
      simp
    · rfl
  simp only [h1, h2, if_false, h3, slice, List.drop_zero]

theorem toIndex_natCast (n : Nat) : toIndex (n : ℚ) = n := by
  simp [toIndex]

theorem le_toIndex (n : Nat) (x : ℚ) (h : (n : ℚ) ≤ x) : n ≤ toIndex x := by
  unfold toIndex
  have : (n : ℤ) ≤ ⌊x⌋ := Int.le_floor.mpr (by simpa using h)
  omega

theorem toIndex_le (n : Nat) (x : ℚ) (h : x ≤ (n : ℚ)) : toIndex x ≤ n := by
  unfold toIndex
  have h1 : ((⌊x⌋ : ℤ) : ℚ) ≤ x := Int.floor_le x
  have h2 : ((⌊x⌋ : ℤ) : ℚ) ≤ ((n : ℤ) : ℚ) := by
    simpa using le_trans h1 h
  have h3 : ⌊x⌋ ≤ (n : ℤ) := by exact_mod_cast h2
  omega

theorem jury_length (toLowerCase : String → String) (rnd : Draws) (now : ℚ) (db : DB)
    (d : Deliverable) (hempty : d.juryUserIds = []) (hdue : d.dueAt ≤ now) :
    (assignJuryIfDue toLowerCase rnd now db d).juryUserIds.length =
      min (toIndex (max 3 d.jurySize))
        (eligibleEvaluatorsForDeliverable toLowerCase db d).length := by
  rw [assignJuryIfDue_due toLowerCase rnd now db d hempty hdue]
  simp only [List.length_map, List.length_take, shuffle_length]
  rcases le_total (max 3 d.jurySize)
      ((eligibleEvaluatorsForDeliverable toLowerCase db d).length : ℚ) with h | h
  · rw [min_eq_left h]
  · rw [min_eq_right h, toIndex_natCast]
    have := le_toIndex _ _ h
    omega

theorem sample_project_found :
    byId Project.id sampleDb.projects sampleDeliverable.projectId = some sampleProject := by
  decide

/-- C9: when the deliverable's project exists, `eligibleEvaluatorsForDeliverable` returns
exactly the registered users that are students outside the project's team (usernames
compared through `toLowerCase`): it is the list of users filtered by that condition, so a
user is returned if and only if it is registered and meets it.  The function is a pure
function of the database. -/
theorem eligibleEvaluatorsForDeliverable_exact (toLowerCase : String → String) (db : DB)
    (d : Deliverable) (project : Project)
    (hp : byId Project.id db.projects d.projectId = some project) :
    eligibleEvaluatorsForDeliverable toLowerCase db d
        = db.users.filter (fun u => decide (IsStudentOutsideTeam toLowerCase project u)) ∧
      ∀ u : User, u ∈ eligibleEvaluatorsForDeliverable toLowerCase db d ↔
        (u ∈ db.users ∧ u.role = "student" ∧
          ∀ t ∈ project.teamUsernames, toLowerCase t ≠ toLowerCase u.username) := by
  have h := eligible_eq_filter toLowerCase db d project hp
  refine ⟨h, ?_⟩
  intro u
  rw [h, List.mem_filter]
  simp [IsStudentOutsideTeam]

theorem eligibleEvaluatorsForDeliverable_exact_witness :
    eligibleEvaluatorsForDeliverable sampleLower sampleDb sampleDeliverable
        = sampleDb.users.filter
            (fun u => decide (IsStudentOutsideTeam sampleLower sampleProject u)) ∧
      ∀ u : User, u ∈ eligibleEvaluatorsForDeliverable sampleLower sampleDb sampleDeliverable ↔
        (u ∈ sampleDb.users ∧ u.role = "student" ∧
          ∀ t ∈ sampleProject.teamUsernames, sampleLower t ≠ sampleLower u.username) :=
  eligibleEvaluatorsForDeliverable_exact sampleLower sampleDb sampleDeliverable sampleProject
    sample_project_found

theorem observe_noop (toLowerCase : String → String) (d : Deliverable)
    (calls : List Observation)
    (h : ∀ c ∈ calls, d.juryUserIds ≠ [] ∨ c.now < d.dueAt) :
    observe toLowerCase d calls = d := by
  unfold observe
  induction calls with
  | nil => rfl
  | cons c cs ih =>
    rw [List.foldl_cons,
      assignJuryIfDue_noop toLowerCase c.rnd c.now c.db d (h c (List.mem_cons_self c cs))]
    exact ih (fun c2 hc2 => h c2 (List.mem_cons_of_mem c hc2))

/-- C2: `assignJuryIfDue` returns the deliverable as it was whenever its jury is already
non-empty or the current instant is before `dueAt`.  Hence a deliverable with an empty jury
keeps it empty through any calls made before `dueAt`, and a deliverable with a non-empty
jury is the same after any number of further calls, whatever their instants, random draws
and databases (users, projects, teams). -/
theorem assignJuryIfDue_guard_and_frozen (toLowerCase : String → String) :
    (∀ (rnd : Draws) (now : ℚ) (db : DB) (d : Deliverable),
        (d.juryUserIds ≠ [] ∨ now < d.dueAt) →
          assignJuryIfDue toLowerCase rnd now db d = d) ∧
      (∀ (d : Deliverable) (calls : List Observation),
        d.juryUserIds = [] → (∀ c ∈ calls, c.now < d.dueAt) →
          (observe toLowerCase d calls).juryUserIds = []) ∧
      (∀ (d : Deliverable) (calls : List Observation),
        d.juryUserIds ≠ [] →
          (observe toLowerCase d calls).juryUserIds = d.juryUserIds ∧
            observe toLowerCase d calls = d) := by
  refine ⟨?_, ?_, ?_⟩
  · intro rnd now db d h
    exact assignJuryIfDue_noop toLowerCase rnd now db d h
  · intro d calls hempty hbefore
    rw [observe_noop toLowerCase d calls (fun c hc => Or.inr (hbefore c hc))]
    exact hempty
  · intro d calls hne
    have h := observe_noop toLowerCase d calls (fun c _ => Or.inl hne)
    exact ⟨by rw [h], h⟩

theorem sample_pool :
    eligibleEvaluatorsForDeliverable sampleLower sampleDb sampleDeliverable
      = [{ id := "u2", username := "bob", role := "student" },
         { id := "u3", username := "cid", role := "student" },
         { id := "u4", username := "dan", role := "student" }] := by
  decide

theorem observe_sample :
    (observe sampleLower sampleDeliverable [⟨zeroDraws, 500, sampleDb⟩]).juryUserIds = [] ∧
      (observe sampleLower sampleDeliverable
        [⟨zeroDraws, 500, sampleDb⟩, ⟨zeroDraws, 1000, sampleDb⟩,
          ⟨lastDraws, 5000, smallDb⟩]).juryUserIds = ["u3", "u4", "u2"] := by
  have h0 : assignJuryIfDue sampleLower zeroDraws 500 sampleDb sampleDeliverable
      = sampleDeliverable :=
    assignJuryIfDue_noop sampleLower zeroDraws 500 sampleDb sampleDeliverable
      (Or.inr (by norm_num [sampleDeliverable]))
  have hidx : toIndex (min (max 3 sampleDeliverable.jurySize) ((3 : ℕ) : ℚ)) = 3 := by
    have : min (max (3 : ℚ) sampleDeliverable.jurySize) ((3 : ℕ) : ℚ) = ((3 : ℕ) : ℚ) := by
      norm_num [sampleDeliverable]
    rw [this, toIndex_natCast]
  have h1 : assignJuryIfDue sampleLower zeroDraws 1000 sampleDb sampleDeliverable
      = { sampleDeliverable with juryUserIds := ["u3", "u4", "u2"] } := by
    rw [assignJuryIfDue_due sampleLower zeroDraws 1000 sampleDb sampleDeliverable rfl
      (by norm_num [sampleDeliverable]), sample_pool]
    simp only [List.length_cons, List.length_nil, Nat.zero_add, Nat.reduceAdd, hidx]
    rfl
  have h2 : assignJuryIfDue sampleLower lastDraws 5000 smallDb
      { sampleDeliverable with juryUserIds := ["u3", "u4", "u2"] }
      = { sampleDeliverable with juryUserIds := ["u3", "u4", "u2"] } :=
    assignJuryIfDue_noop sampleLower lastDraws 5000 smallDb _ (Or.inl (by simp))
  constructor
  · simp only [observe, List.foldl_cons, List.foldl_nil, h0]
    rfl
  · simp only [observe, List.foldl_cons, List.foldl_nil, h0, h1, h2]

theorem wide_pool :
    eligibleEvaluatorsForDeliverable sampleLower wideDb fractionalDeliverable
      = [{ id := "u2", username := "bob", role := "student" },
         { id := "u3", username := "cid", role := "student" },
         { id := "u4", username := "dan", role := "student" },
         { id := "u6", username := "fay", role := "student" },
         { id := "u7", username := "gus", role := "student" }] := by
  decide

/-- C3, as the code has it: for a deliverable whose jury size is at least 3 (the creation
form stores no other), with an empty jury and observed at or after its due instant, if the
eligible pool has at least `jurySize` members the assigned jury has exactly the integer
part of `max(3, jurySize)` members, which is `max(3, jurySize)` itself when `jurySize` is a
whole number; otherwise it has exactly as many members as the eligible pool. -/
theorem assigned_jury_size (toLowerCase : String → String) (rnd : Draws) (now : ℚ) (db : DB)
    (d : Deliverable) (hempty : d.juryUserIds = []) (hdue : d.dueAt ≤ now)
    (hsize : 3 ≤ d.jurySize) :
    (d.jurySize ≤ ((eligibleEvaluatorsForDeliverable toLowerCase db d).length : ℚ) →
        (assignJuryIfDue toLowerCase rnd now db d).juryUserIds.length
          = toIndex (max 3 d.jurySize)) ∧
      (((eligibleEvaluatorsForDeliverable toLowerCase db d).length : ℚ) < d.jurySize →
        (assignJuryIfDue toLowerCase rnd now db d).juryUserIds.length
          = (eligibleEvaluatorsForDeliverable toLowerCase db d).length) ∧
      (∀ n : ℕ, d.jurySize = (n : ℚ) → toIndex (max 3 d.jurySize) = max 3 n) := by
  have hlen := jury_length toLowerCase rnd now db d hempty hdue
  have hmax : max 3 d.jurySize = d.jurySize := max_eq_right hsize
  refine ⟨?_, ?_, ?_⟩
  · intro h
    rw [hlen]
    exact min_eq_left (toIndex_le _ _ (by rw [hmax]; exact h))
  · intro h
    rw [hlen]
    exact min_eq_right (le_toIndex _ _ (by rw [hmax]; exact le_of_lt h))
  · intro n hn
    rw [hn]
    have : max (3 : ℚ) (n : ℚ) = ((max 3 n : ℕ) : ℚ) := by
      push_cast
      rfl
    rw [this, toIndex_natCast]

theorem assigned_jury_size_witness :
    (sampleDeliverable.jurySize
        ≤ ((eligibleEvaluatorsForDeliverable sampleLower sampleDb sampleDeliverable).length : ℚ) →
        (assignJuryIfDue sampleLower zeroDraws 1000 sampleDb sampleDeliverable).juryUserIds.length
          = toIndex (max 3 sampleDeliverable.jurySize)) ∧
      (((eligibleEvaluatorsForDeliverable sampleLower sampleDb sampleDeliverable).length : ℚ)
          < sampleDeliverable.jurySize →
        (assignJuryIfDue sampleLower zeroDraws 1000 sampleDb sampleDeliverable).juryUserIds.length
          = (eligibleEvaluatorsForDeliverable sampleLower sampleDb sampleDeliverable).length) ∧
      (∀ n : ℕ, sampleDeliverable.jurySize = (n : ℚ) →
        toIndex (max 3 sampleDeliverable.jurySize) = max 3 n) :=
  assigned_jury_size sampleLower zeroDraws 1000 sampleDb sampleDeliverable rfl
    (by norm_num [sampleDeliverable]) (by norm_num [sampleDeliverable])

/-- C3 as stated fails: the deliverable was created with jury size 4.5, the eligible pool
has 5 members (at least the requested size), and the assigned jury has 4 members, not
`max(3, 4.5) = 4.5`. -/
theorem jury_size_claim_fails :
    fractionalDeliverable.juryUserIds = [] ∧ fractionalDeliverable.dueAt ≤ 1000 ∧
      3 ≤ fractionalDeliverable.jurySize ∧
      fractionalDeliverable.jurySize
        ≤ ((eligibleEvaluatorsForDeliverable sampleLower wideDb
            fractionalDeliverable).length : ℚ) ∧
      (assignJuryIfDue sampleLower zeroDraws 1000 wideDb
        fractionalDeliverable).juryUserIds.length = 4 ∧
      (((assignJuryIfDue sampleLower zeroDraws 1000 wideDb
          fractionalDeliverable).juryUserIds.length : ℕ) : ℚ)
        ≠ max 3 fractionalDeliverable.jurySize := by
  have hdue : fractionalDeliverable.dueAt ≤ 1000 := by norm_num [fractionalDeliverable]
  have hlen := jury_length sampleLower zeroDraws 1000 wideDb fractionalDeliverable rfl hdue
  have hidx : toIndex (max 3 fractionalDeliverable.jurySize) = 4 := by
    have hmax : max (3 : ℚ) fractionalDeliverable.jurySize = 9 / 2 := by
      norm_num [fractionalDeliverable]
    have hfl : ⌊(9 / 2 : ℚ)⌋ = 4 := by
      rw [Int.floor_eq_iff]
      constructor <;> norm_num
    rw [hmax]
    unfold toIndex
    rw [hfl]
    rfl
  rw [hidx, wide_pool] at hlen
  refine ⟨rfl, hdue, by norm_num [fractionalDeliverable], ?_, hlen, ?_⟩
  · rw [wide_pool]
    norm_num [fractionalDeliverable]
  · rw [hlen]
    norm_num [fractionalDeliverable]

theorem jury_members (toLowerCase : String → String) (rnd : Draws) (now : ℚ) (db : DB)
    (d : Deliverable) (hempty : d.juryUserIds = []) (hdue : d.dueAt ≤ now) :
    ∃ chosen : List User,
      (assignJuryIfDue toLowerCase rnd now db d).juryUserIds = chosen.map User.id ∧
      chosen.Sublist (shuffle rnd (eligibleEvaluatorsForDeliverable toLowerCase db d)) := by
  refine ⟨(shuffle rnd (eligibleEvaluatorsForDeliverable toLowerCase db d)).take
      (toIndex (min (max 3 d.jurySize)
        ((eligibleEvaluatorsForDeliverable toLowerCase db d).length : ℚ))), ?_,
    List.take_sublist _ _⟩
  rw [assignJuryIfDue_due toLowerCase rnd now db d hempty hdue]

/-- C4: when the users of the database have pairwise distinct ids, the jury that
`assignJuryIfDue` assigns (empty jury, due instant reached), for any random draws, is a list
of pairwise distinct ids of registered users, and every registered user whose id is in it
is a student whose username is not, compared through `toLowerCase`, in the team of the
deliverable's project. -/
theorem assigned_jury_distinct_outside_team (toLowerCase : String → String) (rnd : Draws)
    (now : ℚ) (db : DB) (d : Deliverable) (hids : (db.users.map User.id).Nodup)
    (hempty : d.juryUserIds = []) (hdue : d.dueAt ≤ now) :
    (assignJuryIfDue toLowerCase rnd now db d).juryUserIds.Nodup ∧
      (∀ j ∈ (assignJuryIfDue toLowerCase rnd now db d).juryUserIds,
        ∃ u ∈ db.users, u.id = j) ∧
      (∀ u ∈ db.users, u.id ∈ (assignJuryIfDue toLowerCase rnd now db d).juryUserIds →
        u.role = "student" ∧
          ∃ project, byId Project.id db.projects d.projectId = some project ∧
            isUserInTeam toLowerCase project u.username = false ∧
            ∀ t ∈ project.teamUsernames, toLowerCase t ≠ toLowerCase u.username) := by
  obtain ⟨chosen, hj, hsub⟩ := jury_members toLowerCase rnd now db d hempty hdue
  have hperm := shuffle_perm rnd (eligibleEvaluatorsForDeliverable toLowerCase db d)
  have hmem : ∀ u ∈ chosen, u ∈ eligibleEvaluatorsForDeliverable toLowerCase db d :=
    fun u hu => hperm.subset (hsub.subset hu)
  have hnd : (chosen.map User.id).Nodup := by
    have h1 : ((eligibleEvaluatorsForDeliverable toLowerCase db d).map User.id).Nodup :=
      hids.sublist ((eligible_sublist toLowerCase db d).map User.id)
    have h2 : ((shuffle rnd (eligibleEvaluatorsForDeliverable toLowerCase db d)).map
        User.id).Nodup := (hperm.map User.id).nodup_iff.mpr h1
    exact h2.sublist (hsub.map User.id)
  rw [hj]
  refine ⟨hnd, ?_, ?_⟩
  · intro j hjm
    obtain ⟨u, hu, rfl⟩ := List.mem_map.mp hjm
    exact ⟨u, (mem_eligible toLowerCase db d u (hmem u hu)).1, rfl⟩
  · intro u hu hin
    obtain ⟨v, hv, hvid⟩ := List.mem_map.mp hin
    obtain ⟨hvu, project, hp, hst⟩ := mem_eligible toLowerCase db d v (hmem v hv)
    have huv : v = u := List.inj_on_of_nodup_map hids hvu hu hvid
    subst huv
    refine ⟨hst.1, project, hp, ?_, hst.2⟩
    unfold isUserInTeam
    rw [Bool.eq_false_iff]
    intro hany
    obtain ⟨t, ht, heq⟩ := List.any_eq_true.mp hany
    exact hst.2 t ht (by simpa using heq)

theorem sample_ids_nodup : (sampleDb.users.map User.id).Nodup := by
  decide

theorem assigned_jury_distinct_outside_team_witness :
    (assignJuryIfDue sampleLower zeroDraws 1000 sampleDb sampleDeliverable).juryUserIds.Nodup ∧
      (∀ j ∈ (assignJuryIfDue sampleLower zeroDraws 1000 sampleDb sampleDeliverable).juryUserIds,
        ∃ u ∈ sampleDb.users, u.id = j) ∧
      (∀ u ∈ sampleDb.users,
        u.id ∈ (assignJuryIfDue sampleLower zeroDraws 1000 sampleDb
          sampleDeliverable).juryUserIds →
        u.role = "student" ∧
          ∃ project, byId Project.id sampleDb.projects sampleDeliverable.projectId
              = some project ∧
            isUserInTeam sampleLower project u.username = false ∧
            ∀ t ∈ project.teamUsernames, sampleLower t ≠ sampleLower u.username) :=
  assigned_jury_distinct_outside_team sampleLower zeroDraws 1000 sampleDb sampleDeliverable
    sample_ids_nodup rfl (by norm_num [sampleDeliverable])

/-! ## Grade ledger -/

theorem find_modifyFirst {α : Type} (p : α → Bool) (f : α → α) (hf : ∀ y, p y = true → p (f y) = true)
    (l : List α) (x : α) (hx : l.find? p = some x) :
    (modifyFirst p f l).find? p = some (f x) := by
  induction l with
  | nil => simp at hx
  | cons y ys ih =>
    by_cases hy : p y = true
    · simp only [List.find?_cons, hy] at hx
      have : y = x := by simpa using hx
      subst this
      simp [modifyFirst, hy, hf y hy]
    · have hy2 : p y = false := by simpa using hy
      simp only [List.find?_cons, hy2] at hx
      simp [modifyFirst, hy2, ih hx]

theorem modifyFirst_split {α : Type} (p : α → Bool) (f : α → α) (l : List α) (x : α)
    (hx : l.find? p = some x) :
    ∃ before after, l = before ++ x :: after ∧ (∀ y ∈ before, p y = false) ∧ p x = true ∧
      modifyFirst p f l = before ++ f x :: after := by
  induction l with
  | nil => simp at hx
  | cons y ys ih =>
    by_cases hy : p y = true
    · simp only [List.find?_cons, hy] at hx
      have : y = x := by simpa using hx
      subst this
      exact ⟨[], ys, rfl, by simp, hy, by simp [modifyFirst, hy]⟩
    · have hy2 : p y = false := by simpa using hy
      simp only [List.find?_cons, hy2] at hx
      obtain ⟨before, after, h1, h2, h3, h4⟩ := ih hx
      refine ⟨y :: before, after, by simp [h1], ?_, h3, by simp [modifyFirst, hy2, h4]⟩
      intro z hz
      rcases List.mem_cons.mp hz with rfl | hz
      · exact hy2
      · exact h2 z hz

theorem clamp2Decimals_of_valid (r : ℚ) (h : isValidGrade (some r) = true) :
    clamp2Decimals r = r := by
  unfold isValidGrade at h
  simp only at h
  split at h
  · exact absurd h (by simp)
  · rename_i hrange
    have hr1 : 1 ≤ r := by
      by_contra hc
      exact hrange (Or.inl (not_le.mp hc))
    have hr2 : r ≤ 10 := by
      by_contra hc
      exact hrange (Or.inr (not_le.mp hc))
    have hk : toDouble (((⌊r * 100 + 1 / 2⌋ : ℤ) : ℚ) / 100) = r := by simpa using h
    have hk1 : ((⌊r * 100 + 1 / 2⌋ : ℤ) : ℚ) ≤ r * 100 + 1 / 2 := Int.floor_le _
    have hk2 : r * 100 + 1 / 2 < ((⌊r * 100 + 1 / 2⌋ : ℤ) : ℚ) + 1 := Int.lt_floor_add_one _
    generalize ⌊r * 100 + 1 / 2⌋ = k at hk hk1 hk2
    have hb1 : |(k : ℚ) / 100| < (2 : ℚ) ^ ((3 : ℤ) + 1) := by
      rw [abs_lt]
      constructor <;> norm_num <;> linarith
    have he1 := abs_toDouble_sub_le_of_lt ((k : ℚ) / 100) 3 (by norm_num) hb1
    rw [hk] at he1
    have hb2 : |r * 100| < (2 : ℚ) ^ ((9 : ℤ) + 1) := by
      rw [abs_lt]
      constructor <;> norm_num <;> linarith
    have he2 := abs_toDouble_sub_le_of_lt (r * 100) 9 (by norm_num) hb2
    rw [abs_le] at he1 he2
    norm_num at he1 he2
    have hfl : ⌊mulDouble r 100 + 1 / 2⌋ = k := by
      unfold mulDouble
      rw [Int.floor_eq_iff]
      constructor <;> linarith [he1.1, he1.2, he2.1, he2.2]
    unfold clamp2Decimals divDouble
    rw [hfl]
    exact hk

theorem editWindowEnd_exact (d : Deliverable) (a b : ℕ) (ha : d.dueAt = (a : ℚ))
    (hb : d.editWindowMin = (b : ℚ)) (hlt : a + b * 60000 < 2 ^ 53) :
    editWindowEnd d = d.dueAt + d.editWindowMin * 60000 := by
  unfold editWindowEnd addDouble mulDouble
  rw [ha, hb]
  have h1 : toDouble ((b : ℚ) * 60) = ((b * 60 : ℕ) : ℚ) := by
    have := toDouble_natCast (b * 60) (by omega)
    rw [← this]
    push_cast
    rfl
  rw [h1]
  have h2 : toDouble (((b * 60 : ℕ) : ℚ) * 1000) = ((b * 60 * 1000 : ℕ) : ℚ) := by
    have := toDouble_natCast (b * 60 * 1000) (by omega)
    rw [← this]
    push_cast
    rfl
  rw [h2]
  have h3 : toDouble ((a : ℚ) + ((b * 60 * 1000 : ℕ) : ℚ)) = ((a + b * 60 * 1000 : ℕ) : ℚ) := by
    have := toDouble_natCast (a + b * 60 * 1000) (by omega)
    rw [← this]
    push_cast
    rfl
  rw [h3]
  push_cast
  ring

theorem canEditGrade_eq (now : ℚ) (d : Deliverable) :
    canEditGrade now d = decide (now ≤ editWindowEnd d) :=
  rfl

theorem saveGradeClick_found (db : DB) (dId : String) (inputValue : Option ℚ) (now : ℚ)
    (newId : String) (me : User) (d : Deliverable) (hme : getCurrentUser db = some me)
    (hd : byId Deliverable.id db.deliverables dId = some d) :
    saveGradeClick db dId inputValue now newId =
      if !(d.juryUserIds.contains me.id) then (SaveOutcome.notJuror, db)
      else if !(canEditGrade now d) then (SaveOutcome.editWindowClosed, db)
      else
        match inputValue.map clamp2Decimals, isValidGrade (inputValue.map clamp2Decimals) with
        | some v, true =>
          match db.grades.find? (isGradeOf dId me.id) with
          | none =>
            (SaveOutcome.saved,
              { db with grades := db.grades ++
                  [{ id := newId, deliverableId := dId, evaluatorId := me.id, value := v,
                     createdAt := now, updatedAt := now }] })
          | some _ =>
            (SaveOutcome.saved,
              { db with grades :=
                  (modifyFirst (isGradeOf dId me.id)
                    (fun g => { g with value := v, updatedAt := now }) db.grades) })
        | _, _ => (SaveOutcome.invalidValue, db) := by
  unfold saveGradeClick
  rw [hme, hd]
  rfl

theorem saveGradeClick_notJuror (db : DB) (dId : String) (inputValue : Option ℚ) (now : ℚ)
    (newId : String) (me : User) (d : Deliverable) (hme : getCurrentUser db = some me)
    (hd : byId Deliverable.id db.deliverables dId = some d) (hnot : me.id ∉ d.juryUserIds) :
    saveGradeClick db dId inputValue now newId = (SaveOutcome.notJuror, db) := by
  rw [saveGradeClick_found db dId inputValue now newId me d hme hd]
  simp [hnot]

theorem saveGradeClick_closed (db : DB) (dId : String) (inputValue : Option ℚ) (now : ℚ)
    (newId : String) (me : User) (d : Deliverable) (hme : getCurrentUser db = some me)
    (hd : byId Deliverable.id db.deliverables dId = some d) (hin : me.id ∈ d.juryUserIds)
    (hlate : editWindowEnd d < now) :
    saveGradeClick db dId inputValue now newId = (SaveOutcome.editWindowClosed, db) := by
  rw [saveGradeClick_found db dId inputValue now newId me d hme hd]
  have hc : canEditGrade now d = false := by
    rw [canEditGrade_eq]
    simp only [decide_eq_false_iff_not, not_le]
    exact hlate
  simp [hin, hc]

theorem saveGradeClick_accept (db : DB) (dId : String) (r : ℚ) (now : ℚ)
    (newId : String) (me : User) (d : Deliverable) (hme : getCurrentUser db = some me)
    (hd : byId Deliverable.id db.deliverables dId = some d) (hin : me.id ∈ d.juryUserIds)
    (hopen : now ≤ editWindowEnd d)
    (hvalid : isValidGrade (some (clamp2Decimals r)) = true) :
    saveGradeClick db dId (some r) now newId =
      match db.grades.find? (isGradeOf dId me.id) with
      | none =>
        (SaveOutcome.saved,
          { db with grades := db.grades ++
              [{ id := newId, deliverableId := dId, evaluatorId := me.id,
                 value := clamp2Decimals r, createdAt := now, updatedAt := now }] })
      | some _ =>
        (SaveOutcome.saved,
          { db with grades :=
              (modifyFirst (isGradeOf dId me.id)
                (fun g => { g with value := clamp2Decimals r, updatedAt := now })
                db.grades) }) := by
  rw [saveGradeClick_found db dId (some r) now newId me d hme hd]
  have hc : canEditGrade now d = true := by
    rw [canEditGrade_eq]
    simp only [decide_eq_true_eq]
    exact hopen
  simp only [Option.map_some', hvalid]
  simp [hin, hc]

theorem saveGradeClick_cases (db : DB) (dId : String) (inputValue : Option ℚ) (now : ℚ)
    (newId : String) :
    ((saveGradeClick db dId inputValue now newId).2 = db ∧
        (saveGradeClick db dId inputValue now newId).1 ≠ SaveOutcome.saved) ∨
      ∃ me v, getCurrentUser db = some me ∧ inputValue.map clamp2Decimals = some v ∧
        saveGradeClick db dId inputValue now newId =
          match db.grades.find? (isGradeOf dId me.id) with
          | none =>
            (SaveOutcome.saved,
              { db with grades := db.grades ++
                  [{ id := newId, deliverableId := dId, evaluatorId := me.id, value := v,
                     createdAt := now, updatedAt := now }] })
          | some _ =>
            (SaveOutcome.saved,
              { db with grades :=
                  (modifyFirst (isGradeOf dId me.id)
                    (fun g => { g with value := v, updatedAt := now }) db.grades) }) := by
  cases hme : getCurrentUser db with
  | none =>
    left
    simp [saveGradeClick, hme]
  | some me =>
    cases hd : byId Deliverable.id db.deliverables dId with
    | none =>
      left
      simp [saveGradeClick, hme, hd]
    | some d =>
      rw [saveGradeClick_found db dId inputValue now newId me d hme hd]
      by_cases h1 : me.id ∈ d.juryUserIds
      · by_cases h2 : canEditGrade now d = true
        · cases hv : inputValue.map clamp2Decimals with
          | none =>
            left
            simp [h1, h2]
          | some v =>
            cases hvalid : isValidGrade (some v) with
            | false =>
              left
              simp [h1, h2, hvalid]
            | true =>
              right
              refine ⟨me, v, rfl, rfl, ?_⟩
              simp [h1, h2, hvalid]
        · left
          simp [h1, h2]
      · left
        simp [h1]

theorem gradesUnique_append (db : DB) (dId evaluatorId : String) (g : Grade)
    (hinv : GradesUnique db) (hnone : db.grades.find? (isGradeOf dId evaluatorId) = none)
    (hg1 : g.deliverableId = dId) (hg2 : g.evaluatorId = evaluatorId) :
    GradesUnique { db with grades := db.grades ++ [g] } := by
  unfold GradesUnique at *
  simp only [List.map_append, List.map_cons, List.map_nil]
  rw [List.nodup_append]
  refine ⟨hinv, by simp, ?_⟩
  intro k hk hk2
  have hk3 : k = (g.deliverableId, g.evaluatorId) := by simpa using hk2
  obtain ⟨x, hx, hxk⟩ := List.mem_map.mp hk
  have hfalse := List.find?_eq_none.mp hnone x hx
  rw [hk3] at hxk
  have h1 : x.deliverableId = dId := by
    have := congrArg Prod.fst hxk
    simp at this
    rw [this, hg1]
  have h2 : x.evaluatorId = evaluatorId := by
    have := congrArg Prod.snd hxk
    simp at this
    rw [this, hg2]
  simp [isGradeOf, h1, h2] at hfalse

theorem map_key_modifyFirst (p : Grade → Bool) (v now : ℚ) (l : List Grade) :
    (modifyFirst p (fun g => { g with value := v, updatedAt := now }) l).map
        (fun g => (g.deliverableId, g.evaluatorId))
      = l.map (fun g => (g.deliverableId, g.evaluatorId)) := by
  induction l with
  | nil => rfl
  | cons x xs ih =>
    by_cases hx : p x = true
    · simp [modifyFirst, hx]
    · have hx2 : p x = false := by simpa using hx
      simp [modifyFirst, hx2, ih]

theorem saveGradeClick_unique (db : DB) (dId : String) (inputValue : Option ℚ) (now : ℚ)
    (newId : String) (hinv : GradesUnique db) :
    GradesUnique (saveGradeClick db dId inputValue now newId).2 := by
  rcases saveGradeClick_cases db dId inputValue now newId with h | ⟨me, v, _, _, h⟩
  · rw [h.1]
    exact hinv
  · rw [h]
    cases hfind : db.grades.find? (isGradeOf dId me.id) with
    | none => exact gradesUnique_append db dId me.id _ hinv hfind rfl rfl
    | some g0 =>
      unfold GradesUnique
      simp only
      rw [map_key_modifyFirst]
      exact hinv

theorem saveGradeClick_update (db : DB) (dId : String) (inputValue : Option ℚ) (now : ℚ)
    (newId : String) (hinv : GradesUnique db) (me : User) (g0 : Grade)
    (hme : getCurrentUser db = some me)
    (hfind : db.grades.find? (isGradeOf dId me.id) = some g0)
    (hsaved : (saveGradeClick db dId inputValue now newId).1 = SaveOutcome.saved) :
    ∃ before after v, inputValue.map clamp2Decimals = some v ∧
      db.grades = before ++ g0 :: after ∧
      g0.deliverableId = dId ∧ g0.evaluatorId = me.id ∧
      (∀ g ∈ before ++ after, ¬ (g.deliverableId = dId ∧ g.evaluatorId = me.id)) ∧
      saveGradeClick db dId inputValue now newId =
        (SaveOutcome.saved,
          { db with grades := before ++ { g0 with value := v, updatedAt := now } :: after }) := by
  rcases saveGradeClick_cases db dId inputValue now newId with h | ⟨me2, v, hme2, hv, h⟩
  · exact absurd hsaved h.2
  · have : me2 = me := by
      rw [hme] at hme2
      exact (Option.some.inj hme2).symm
    subst this
    rw [hfind] at h
    obtain ⟨before, after, hsplit, hbefore, hp, hmod⟩ :=
      modifyFirst_split (isGradeOf dId me2.id)
        (fun g => { g with value := v, updatedAt := now }) db.grades g0 hfind
    have hkey : g0.deliverableId = dId ∧ g0.evaluatorId = me2.id := by
      simpa [isGradeOf] using hp
    refine ⟨before, after, v, hv, hsplit, hkey.1, hkey.2, ?_, ?_⟩
    · intro g hg hgk
      unfold GradesUnique at hinv
      rw [hsplit] at hinv
      simp only [List.map_append, List.map_cons] at hinv
      rcases List.mem_append.mp hg with hgb | hga
      · have := hbefore g hgb
        simp [isGradeOf, hgk.1, hgk.2] at this
      · have hnd := (List.nodup_append.mp hinv).2.1
        have hnot := (List.nodup_cons.mp hnd).1
        apply hnot
        rw [hkey.1, hkey.2, ← hgk.1, ← hgk.2]
        exact List.mem_map.mpr ⟨g, hga, rfl⟩
    · rw [h, hmod]

theorem ledger_user : getCurrentUser ledgerDb = some bob := by
  decide

theorem outsider_user : getCurrentUser outsiderDb = some ana := by
  decide

theorem ledger_deliverable :
    byId Deliverable.id ledgerDb.deliverables "d1" = some juriedDeliverable := by
  rfl

theorem tight_deliverable :
    byId Deliverable.id tightDb.deliverables "d1" = some tightDeliverable := by
  rfl

theorem tight_user : getCurrentUser tightDb = some bob := by
  decide

theorem toDouble_seven_cent :
    toDouble (701 / 100) = 3946279173483397 / 562949953421312 := by
  rw [toDouble_eq (701 / 100) 2 7892558346966794 (by norm_num) (by norm_num [abs_of_pos])
    (by norm_num [abs_of_pos]) (roundHalfEven_of_lt _ _ (by norm_num) (by norm_num))]
  norm_num

theorem seven_cent_valid : isValidGrade (some (toDouble (701 / 100))) = true := by
  have hfl : ⌊(3946279173483397 / 562949953421312 : ℚ) * 100 + 1 / 2⌋ = 701 := by
    rw [Int.floor_eq_iff]
    constructor <;> norm_num
  unfold isValidGrade
  simp only
  rw [toDouble_seven_cent, if_neg (by norm_num), hfl]
  simp only [decide_eq_true_eq]
  norm_num
  exact toDouble_seven_cent

theorem sample_value_valid :
    isValidGrade ((some (toDouble (701 / 100))).map clamp2Decimals) = true := by
  rw [Option.map_some', clamp2Decimals_of_valid _ seven_cent_valid]
  exact seven_cent_valid

theorem eight_valid : isValidGrade ((some (8 : ℚ)).map clamp2Decimals) = true := by
  have h8 : toDouble (8 : ℚ) = 8 := by
    simpa using toDouble_natCast 8 (by norm_num)
  have hfl : ⌊(8 : ℚ) * 100 + 1 / 2⌋ = 800 := by
    rw [Int.floor_eq_iff]
    constructor <;> norm_num
  have hv : isValidGrade (some (8 : ℚ)) = true := by
    unfold isValidGrade
    simp only
    rw [if_neg (by norm_num), hfl]
    simp only [decide_eq_true_eq]
    norm_num
    exact h8
  rw [Option.map_some', clamp2Decimals_of_valid _ hv]
  exact hv

theorem tight_window_end : editWindowEnd tightDeliverable = 1700000120000 := by
  have h0 : toDouble (1999999999 / 1000000000) = 562949953139837 / 281474976710656 := by
    rw [toDouble_eq _ 0 9007199250237392 (by norm_num) (by norm_num [abs_of_pos])
      (by norm_num [abs_of_pos]) (roundHalfEven_of_lt _ _ (by norm_num) (by norm_num))]
    norm_num
  have h1 : mulDouble (562949953139837 / 281474976710656) 60
      = 8444249297097555 / 70368744177664 := by
    unfold mulDouble
    rw [toDouble_eq _ 6 8444249297097555 (by norm_num) (by norm_num [abs_of_pos])
      (by norm_num [abs_of_pos]) (roundHalfEven_of_lt _ _ (by norm_num) (by norm_num))]
    norm_num
  have h2 : mulDouble (8444249297097555 / 70368744177664) 1000
      = 8246337204196831 / 68719476736 := by
    unfold mulDouble
    rw [toDouble_eq _ 16 8246337204196831 (by norm_num) (by norm_num [abs_of_pos])
      (by norm_num [abs_of_pos]) (roundHalfEven_of_lt _ _ (by norm_num) (by norm_num))]
    norm_num
  have h3 : addDouble 1700000000000 (8246337204196831 / 68719476736) = 1700000120000 := by
    unfold addDouble
    rw [toDouble_eq _ 40 6963200491520000 (by norm_num) (by norm_num [abs_of_pos])
      (by norm_num [abs_of_pos]) (roundHalfEven_of_lt _ _ (by norm_num) (by norm_num))]
    norm_num
  unfold editWindowEnd tightDeliverable
  simp only
  rw [h0, h1, h2, h3]

theorem tight_window_exact :
    tightDeliverable.dueAt + tightDeliverable.editWindowMin * 60000 < 1700000120000 := by
  have h0 : toDouble (1999999999 / 1000000000) = 562949953139837 / 281474976710656 := by
    rw [toDouble_eq _ 0 9007199250237392 (by norm_num) (by norm_num [abs_of_pos])
      (by norm_num [abs_of_pos]) (roundHalfEven_of_lt _ _ (by norm_num) (by norm_num))]
    norm_num
  unfold tightDeliverable
  simp only
  rw [h0]
  norm_num

/-- C5, as the code has it: for a juror of the deliverable and an input that is valid once
normalised by `clamp2Decimals`, the save-grade handler rejects the click and leaves the
database (so the grades) as it was when the current instant is after the deadline the
code computes, `dueAt + editWindowMin * 60 * 1000` with every product and the sum rounded
to the nearest double; when the current instant is strictly before that deadline the
click is accepted and the juror then has a grade for the deliverable whose value is a
valid grade, and is the input itself when the input has at most two decimals, both on a
first submission (a new record is appended) and on an update (the existing record keeps
its id, keys and `createdAt`).  The computed deadline is exactly
`dueAt + editWindowMin * 60000` when `dueAt` and `editWindowMin` are whole numbers and
that sum is below `2 ^ 53`. -/
theorem save_grade_edit_window (db : DB) (dId : String) (inputValue : Option ℚ) (now : ℚ)
    (newId : String) (me : User) (d : Deliverable) (hme : getCurrentUser db = some me)
    (hd : byId Deliverable.id db.deliverables dId = some d) (hin : me.id ∈ d.juryUserIds)
    (hvalid : isValidGrade (inputValue.map clamp2Decimals) = true) :
    (editWindowEnd d < now →
        saveGradeClick db dId inputValue now newId = (SaveOutcome.editWindowClosed, db)) ∧
      (now < editWindowEnd d →
        (saveGradeClick db dId inputValue now newId).1 = SaveOutcome.saved ∧
        ∃ r g, inputValue = some r ∧
          (saveGradeClick db dId inputValue now newId).2.grades.find? (isGradeOf dId me.id)
            = some g ∧
          isValidGrade (some g.value) = true ∧
          (isValidGrade (some r) = true → g.value = r) ∧
          (db.grades.find? (isGradeOf dId me.id) = none →
            (saveGradeClick db dId inputValue now newId).2.grades = db.grades ++ [g] ∧
              g.createdAt = now ∧ g.updatedAt = now) ∧
          (∀ g0, db.grades.find? (isGradeOf dId me.id) = some g0 →
            g = { g0 with value := g.value, updatedAt := now })) ∧
      (∀ a b : ℕ, d.dueAt = (a : ℚ) → d.editWindowMin = (b : ℚ) → a + b * 60000 < 2 ^ 53 →
        editWindowEnd d = d.dueAt + d.editWindowMin * 60000) := by
  refine ⟨fun hlate => saveGradeClick_closed db dId inputValue now newId me d hme hd hin hlate,
    ?_, fun a b ha hb hlt => editWindowEnd_exact d a b ha hb hlt⟩
  intro hbefore
  cases hinput : inputValue with
  | none =>
    rw [hinput] at hvalid
    simp [isValidGrade] at hvalid
  | some r =>
    rw [hinput] at hvalid
    have hvalid2 : isValidGrade (some (clamp2Decimals r)) = true := by simpa using hvalid
    have hacc := saveGradeClick_accept db dId r now newId me d hme hd hin (le_of_lt hbefore)
      hvalid2
    have hexact : isValidGrade (some r) = true → clamp2Decimals r = r :=
      fun hr => clamp2Decimals_of_valid r hr
    cases hfind : db.grades.find? (isGradeOf dId me.id) with
    | none =>
      rw [hfind] at hacc
      rw [hacc]
      refine ⟨rfl, r, _, rfl, ?_, hvalid2, hexact, fun _ => ⟨rfl, rfl, rfl⟩, ?_⟩
      · simp [List.find?_append, hfind, isGradeOf]
      · intro g0 hg0
        exact absurd hg0 (by simp)
    | some g1 =>
      rw [hfind] at hacc
      rw [hacc]
      refine ⟨rfl, r, { g1 with value := clamp2Decimals r, updatedAt := now }, rfl, ?_,
        hvalid2, hexact, ?_, ?_⟩
      · exact find_modifyFirst (isGradeOf dId me.id) _ (fun y hy => by simpa [isGradeOf] using hy)
          db.grades g1 hfind
      · intro h0
        exact absurd h0 (by simp)
      · intro g0 hg0
        have : g1 = g0 := by simpa using hg0
        rw [this]

theorem save_grade_edit_window_witness :
    (editWindowEnd juriedDeliverable < 2000 →
        saveGradeClick ledgerDb "d1" (some (toDouble (701 / 100))) 2000 "g2"
          = (SaveOutcome.editWindowClosed, ledgerDb)) ∧
      (2000 < editWindowEnd juriedDeliverable →
        (saveGradeClick ledgerDb "d1" (some (toDouble (701 / 100))) 2000 "g2").1
          = SaveOutcome.saved ∧
        ∃ r g, some (toDouble (701 / 100)) = some r ∧
          (saveGradeClick ledgerDb "d1" (some (toDouble (701 / 100))) 2000 "g2").2.grades.find?
              (isGradeOf "d1" bob.id) = some g ∧
          isValidGrade (some g.value) = true ∧
          (isValidGrade (some r) = true → g.value = r) ∧
          (ledgerDb.grades.find? (isGradeOf "d1" bob.id) = none →
            (saveGradeClick ledgerDb "d1" (some (toDouble (701 / 100))) 2000 "g2").2.grades
                = ledgerDb.grades ++ [g] ∧
              g.createdAt = 2000 ∧ g.updatedAt = 2000) ∧
          (∀ g0, ledgerDb.grades.find? (isGradeOf "d1" bob.id) = some g0 →
            g = { g0 with value := g.value, updatedAt := 2000 })) ∧
      (∀ a b : ℕ, juriedDeliverable.dueAt = (a : ℚ) → juriedDeliverable.editWindowMin = (b : ℚ) →
        a + b * 60000 < 2 ^ 53 →
        editWindowEnd juriedDeliverable
          = juriedDeliverable.dueAt + juriedDeliverable.editWindowMin * 60000) :=
  save_grade_edit_window ledgerDb "d1" (some (toDouble (701 / 100))) 2000 "g2" bob
    juriedDeliverable ledger_user ledger_deliverable (by decide) sample_value_valid

/-- C5 as stated fails: bob is a juror, the input 8 is valid, and the current instant
1700000120000 is after `dueAt + editWindowMin * 60000` (the window is 1.999999999
minutes), yet the code's deadline rounds to 1700000120000 and the click is saved. -/
theorem edit_window_claim_fails :
    getCurrentUser tightDb = some bob ∧
      byId Deliverable.id tightDb.deliverables "d1" = some tightDeliverable ∧
      bob.id ∈ tightDeliverable.juryUserIds ∧
      isValidGrade ((some (8 : ℚ)).map clamp2Decimals) = true ∧
      tightDeliverable.dueAt + tightDeliverable.editWindowMin * 60000 < 1700000120000 ∧
      (saveGradeClick tightDb "d1" (some 8) 1700000120000 "g1").1 = SaveOutcome.saved ∧
      (saveGradeClick tightDb "d1" (some 8) 1700000120000 "g1").2.grades ≠ tightDb.grades := by
  have hacc := saveGradeClick_accept tightDb "d1" 8 1700000120000 "g1" bob tightDeliverable
    tight_user tight_deliverable (by decide) (le_of_eq tight_window_end.symm)
    (by simpa using eight_valid)
  have hnone : tightDb.grades.find? (isGradeOf "d1" bob.id) = none := rfl
  rw [hnone] at hacc
  refine ⟨tight_user, tight_deliverable, by decide, eight_valid, tight_window_exact, ?_, ?_⟩
  · rw [hacc]
  · rw [hacc]
    simp [tightDb]

/-- C6: when the caller's user id is not in the deliverable's jury, the save-grade handler
rejects the click (outcome `notJuror`) and the database after it is the database before:
the list of grades is exactly what it was, no record created and none altered. -/
theorem save_grade_not_juror (db : DB) (dId : String) (inputValue : Option ℚ) (now : ℚ)
    (newId : String) (me : User) (d : Deliverable) (hme : getCurrentUser db = some me)
    (hd : byId Deliverable.id db.deliverables dId = some d) (hnot : me.id ∉ d.juryUserIds) :
    (saveGradeClick db dId inputValue now newId).1 = SaveOutcome.notJuror ∧
      (saveGradeClick db dId inputValue now newId).2 = db ∧
      (saveGradeClick db dId inputValue now newId).2.grades = db.grades := by
  rw [saveGradeClick_notJuror db dId inputValue now newId me d hme hd hnot]
  exact ⟨rfl, rfl, rfl⟩

theorem save_grade_not_juror_witness :
    (saveGradeClick outsiderDb "d1" (some 9) 2000 "g2").1 = SaveOutcome.notJuror ∧
      (saveGradeClick outsiderDb "d1" (some 9) 2000 "g2").2 = outsiderDb ∧
      (saveGradeClick outsiderDb "d1" (some 9) 2000 "g2").2.grades = outsiderDb.grades :=
  save_grade_not_juror outsiderDb "d1" (some 9) 2000 "g2" ana juriedDeliverable outsider_user
    ledger_deliverable (by decide)

/-- C7: the save-grade handler preserves "at most one grade per (deliverable, evaluator)
pair", whatever the click (first submission or update, accepted or rejected); and an
accepted click of a caller who already has a record for the deliverable rewrites only
that record, setting its value and `updatedAt` and keeping its id, keys and `createdAt`,
while every other record is unchanged. -/
theorem save_grade_keeps_one_grade_per_pair (db : DB) (dId : String) (inputValue : Option ℚ)
    (now : ℚ) (newId : String) (hinv : GradesUnique db) :
    GradesUnique (saveGradeClick db dId inputValue now newId).2 ∧
      ∀ (me : User) (g0 : Grade), getCurrentUser db = some me →
        db.grades.find? (isGradeOf dId me.id) = some g0 →
        (saveGradeClick db dId inputValue now newId).1 = SaveOutcome.saved →
        ∃ before after v, inputValue.map clamp2Decimals = some v ∧
          db.grades = before ++ g0 :: after ∧
          g0.deliverableId = dId ∧ g0.evaluatorId = me.id ∧
          (∀ g ∈ before ++ after, ¬ (g.deliverableId = dId ∧ g.evaluatorId = me.id)) ∧
          saveGradeClick db dId inputValue now newId =
            (SaveOutcome.saved,
              { db with grades :=
                  before ++ { g0 with value := v, updatedAt := now } :: after }) :=
  ⟨saveGradeClick_unique db dId inputValue now newId hinv,
    fun me g0 hme hfind hsaved =>
      saveGradeClick_update db dId inputValue now newId hinv me g0 hme hfind hsaved⟩

theorem grader_unique : GradesUnique graderDb := by
  unfold GradesUnique
  decide

theorem save_grade_keeps_one_grade_per_pair_witness :
    GradesUnique (saveGradeClick graderDb "d1" (some (1401 / 200)) 2000 "g2").2 ∧
      ∀ (me : User) (g0 : Grade), getCurrentUser graderDb = some me →
        graderDb.grades.find? (isGradeOf "d1" me.id) = some g0 →
        (saveGradeClick graderDb "d1" (some (1401 / 200)) 2000 "g2").1 = SaveOutcome.saved →
        ∃ before after v, (some (1401 / 200 : ℚ)).map clamp2Decimals = some v ∧
          graderDb.grades = before ++ g0 :: after ∧
          g0.deliverableId = "d1" ∧ g0.evaluatorId = me.id ∧
          (∀ g ∈ before ++ after, ¬ (g.deliverableId = "d1" ∧ g.evaluatorId = me.id)) ∧
          saveGradeClick graderDb "d1" (some (1401 / 200)) 2000 "g2" =
            (SaveOutcome.saved,
              { graderDb with grades :=
                  before ++ { g0 with value := v, updatedAt := 2000 } :: after }) :=
  save_grade_keeps_one_grade_per_pair graderDb "d1" (some (1401 / 200)) 2000 "g2" grader_unique

/-! ## Supervisor view -/

theorem filter_map_congr {α β : Type} (R : α → α → Prop) (p q : α → Bool) (f g : α → β)
    (hp : ∀ a b, R a b → p a = q b) (hf : ∀ a b, R a b → f a = g b) (l1 l2 : List α)
    (h : List.Forall₂ R l1 l2) : (l1.filter p).map f = (l2.filter q).map g := by
  induction h with
  | nil => rfl
  | @cons a b t1 t2 hab _ ih =>
    have h1 := hp a b hab
    cases hq : q b with
    | false =>
      rw [hq] at h1
      simp [List.filter_cons, h1, hq, ih]
    | true =>
      rw [hq] at h1
      simp [List.filter_cons, h1, hq, ih, hf a b hab]

theorem assignJuryIfDue_fields (toLowerCase : String → String) (rnd : Draws) (now : ℚ)
    (db : DB) (d : Deliverable) :
    (assignJuryIfDue toLowerCase rnd now db d).id = d.id ∧
      (assignJuryIfDue toLowerCase rnd now db d).title = d.title ∧
      (assignJuryIfDue toLowerCase rnd now db d).dueAt = d.dueAt ∧
      (assignJuryIfDue toLowerCase rnd now db d).link = d.link := by
  unfold assignJuryIfDue
  split
  · exact ⟨rfl, rfl, rfl, rfl⟩
  · split
    · exact ⟨rfl, rfl, rfl, rfl⟩
    · exact ⟨rfl, rfl, rfl, rfl⟩

theorem eligible_congr (toLowerCase : String → String) (db1 db2 : DB) (d1 d2 : Deliverable)
    (hu : db1.users = db2.users) (hp : db1.projects = db2.projects)
    (hd : d1.projectId = d2.projectId) :
    eligibleEvaluatorsForDeliverable toLowerCase db1 d1
      = eligibleEvaluatorsForDeliverable toLowerCase db2 d2 := by
  unfold eligibleEvaluatorsForDeliverable
  rw [hu, hp, hd]

theorem jury_count_congr (toLowerCase : String → String) (rnd1 rnd2 : Draws) (now : ℚ)
    (db1 db2 : DB) (d1 d2 : Deliverable) (hu : db1.users = db2.users)
    (hp : db1.projects = db2.projects) (hd : SameButJurors d1 d2) :
    (assignJuryIfDue toLowerCase rnd1 now db1 d1).juryUserIds.length
      = (assignJuryIfDue toLowerCase rnd2 now db2 d2).juryUserIds.length := by
  obtain ⟨_, hproj, _, hdue, hsize, _, _, hlen⟩ := hd
  by_cases h1 : d1.juryUserIds = []
  · have h2 : d2.juryUserIds = [] := by
      rw [h1] at hlen
      exact List.length_eq_zero.mp hlen.symm
    by_cases hnow : now < d1.dueAt
    · rw [assignJuryIfDue_noop toLowerCase rnd1 now db1 d1 (Or.inr hnow),
        assignJuryIfDue_noop toLowerCase rnd2 now db2 d2 (Or.inr (hdue ▸ hnow))]
      exact hlen
    · have hge : d1.dueAt ≤ now := not_lt.mp hnow
      rw [jury_length toLowerCase rnd1 now db1 d1 h1 hge,
        jury_length toLowerCase rnd2 now db2 d2 h2 (hdue ▸ hge),
        eligible_congr toLowerCase db1 db2 d1 d2 hu hp hproj, hsize]
  · have h2 : d2.juryUserIds ≠ [] := by
      intro h0
      rw [h0] at hlen
      exact h1 (List.length_eq_zero.mp hlen)
    rw [assignJuryIfDue_noop toLowerCase rnd1 now db1 d1 (Or.inl h1),
      assignJuryIfDue_noop toLowerCase rnd2 now db2 d2 (Or.inl h2)]
    exact hlen

theorem values_congr (db1 db2 : DB) (id1 id2 : String) (hid : id1 = id2)
    (hg : List.Forall₂ SameButEvaluator db1.grades db2.grades) :
    (getGradesForDeliverable db1 id1).map (fun g => g.value)
      = (getGradesForDeliverable db2 id2).map (fun g => g.value) := by
  unfold getGradesForDeliverable
  subst hid
  exact filter_map_congr SameButEvaluator _ _ _ _
    (fun a b hab => by simp only [hab.2.1]) (fun a b hab => hab.2.2.1) _ _ hg

theorem renderDeliverable_congr (toLowerCase : String → String) (rnd1 rnd2 : Draws) (now : ℚ)
    (db1 db2 : DB) (d1 d2 : Deliverable) (hdb : SameButIdentities db1 db2)
    (hd : SameButJurors d1 d2) :
    renderDeliverable toLowerCase rnd1 now db1 d1
      = renderDeliverable toLowerCase rnd2 now db2 d2 := by
  obtain ⟨hu, hp, _, _, hg⟩ := hdb
  have hcount := jury_count_congr toLowerCase rnd1 rnd2 now db1 db2 d1 d2 hu hp hd
  obtain ⟨f1, f2, f3, f4⟩ := assignJuryIfDue_fields toLowerCase rnd1 now db1 d1
  obtain ⟨e1, e2, e3, e4⟩ := assignJuryIfDue_fields toLowerCase rnd2 now db2 d2
  obtain ⟨hid, _, htitle, hdue, _, _, hlink, _⟩ := hd
  have hvals := values_congr db1 db2 (assignJuryIfDue toLowerCase rnd1 now db1 d1).id
    (assignJuryIfDue toLowerCase rnd2 now db2 d2).id (by rw [f1, e1, hid]) hg
  unfold renderDeliverable
  simp only [hvals, hcount, f2, f3, f4, e2, e3, e4, htitle, hdue, hlink]

theorem renderProfessor_congr (toLowerCase : String → String)
    (rnd1 rnd2 : Project → Deliverable → Draws) (now : ℚ) (db1 db2 : DB)
    (hdb : SameButIdentities db1 db2) :
    renderProfessor toLowerCase rnd1 now db1 = renderProfessor toLowerCase rnd2 now db2 := by
  unfold renderProfessor
  rw [hdb.2.1]
  apply List.map_congr_left
  intro p _
  have hcards := filter_map_congr SameButJurors
    (fun d => d.projectId == p.id) (fun d => d.projectId == p.id)
    (fun d => renderDeliverable toLowerCase (rnd1 p d) now db1 d)
    (fun d => renderDeliverable toLowerCase (rnd2 p d) now db2 d)
    (fun a b hab => by simp only [hab.2.1])
    (fun a b hab => renderDeliverable_congr toLowerCase _ _ now db1 db2 a b hdb hab)
    db1.deliverables db2.deliverables hdb.2.2.2.1
  simp only [hcards]

theorem view_dbs_related : SameButIdentities viewDbA viewDbB := by
  refine ⟨rfl, rfl, rfl, ?_, ?_⟩
  · exact List.Forall₂.cons ⟨rfl, rfl, rfl, rfl, rfl, rfl, rfl, rfl⟩ List.Forall₂.nil
  · exact List.Forall₂.cons ⟨rfl, rfl, rfl, rfl, rfl⟩
      (List.Forall₂.cons ⟨rfl, rfl, rfl, rfl, rfl⟩
        (List.Forall₂.cons ⟨rfl, rfl, rfl, rfl, rfl⟩ List.Forall₂.nil))

/-- C8: two databases that differ only in the `evaluatorId` of their grades and in which
user ids (the same number of them) make up each deliverable's jury give the same output
of `renderProfessor`, whatever the random draws of the two runs: per deliverable the
title, due instant, grade count over jury size, link, submitted values and final grade
are identical, so the view does not depend on who submitted which value. -/
theorem renderProfessor_hides_evaluators (toLowerCase : String → String)
    (rnd1 rnd2 : Project → Deliverable → Draws) (now : ℚ) (db1 db2 : DB)
    (hdb : SameButIdentities db1 db2) :
    renderProfessor toLowerCase rnd1 now db1 = renderProfessor toLowerCase rnd2 now db2 :=
  renderProfessor_congr toLowerCase rnd1 rnd2 now db1 db2 hdb

theorem renderProfessor_hides_evaluators_witness :
    renderProfessor sampleLower (fun _ _ => zeroDraws) 2000 viewDbA
      = renderProfessor sampleLower (fun _ _ => lastDraws) 2000 viewDbB :=
  renderProfessor_hides_evaluators sampleLower (fun _ _ => zeroDraws) (fun _ _ => lastDraws)
    2000 viewDbA viewDbB view_dbs_related

theorem view_scenario :
    renderProfessor sampleLower (fun _ _ => zeroDraws) 2000 viewDbA
      = [{ title := "Compiler", team := ["Ana"],
           cards := [{ title := "Demo", dueAt := 1000, gradeCount := 3, juryCount := 3,
                       link := "", values := [4, 9, 5], final := some 5 }] }] := by
  have h5 : toDouble (5 : ℚ) = 5 := by
    simpa using toDouble_natCast 5 (by norm_num)
  have h500 : toDouble (500 : ℚ) = 500 := by
    simpa using toDouble_natCast 500 (by norm_num)
  have hfl : ⌊(500 : ℚ) + 1 / 2⌋ = 500 := by
    rw [Int.floor_eq_iff]
    constructor <;> norm_num
  have hfinal : computeFinalGradeFromValues [4, 9, 5] = some 5 := by
    have hsort : sortAscending [4, 9, 5] = [4, 5, 9] := by
      norm_num [sortAscending, List.insertionSort, List.orderedInsert]
    unfold computeFinalGradeFromValues
    rw [if_neg (by simp), hsort]
    simp only [slice, List.length_cons, List.length_nil, List.take, List.drop,
      List.foldl_cons, List.foldl_nil, addDouble, divDouble, clamp2Decimals, mulDouble]
    norm_num [h5, h500, hfl]
  simp [renderProfessor, renderDeliverable, viewDbA, sampleProject, juriedDeliverable,
    sampleDeliverable, assignJuryIfDue, getGradesForDeliverable, hfinal]

/-! ## Shuffle as a bijection -/

theorem getElem?_swap {α : Type} (a : List α) (i j k : Nat) (hi : i < a.length)
    (hj : j < a.length) :
    (swap a i j)[k]? = if k = j then a[i]? else if k = i then a[j]? else a[k]? := by
  rw [swap_eq_set a i j hi hj]
  simp only [List.getElem?_set, List.length_set]
  by_cases h1 : j = k
  · subst h1
    simp [hj, List.getElem?_eq_getElem hi]
  · have h1b : ¬ k = j := fun h => h1 h.symm
    by_cases h2 : i = k
    · subst h2
      simp [h1, h1b, hi, List.getElem?_eq_getElem hj]
    · have h2b : ¬ k = i := fun h => h2 h.symm
      simp [h1, h1b, h2, h2b]

theorem shuffleLoop_succ {α : Type} (rnd : Draws) (i : Nat) (a : List α) :
    shuffleLoop rnd (i + 1) a = shuffleLoop rnd i (swap a (i + 1) (rnd (i + 1)).val) :=
  rfl

theorem shuffleLoop_congr {α : Type} (rnd rnd2 : Draws) (i : Nat) (a : List α)
    (h : ∀ k, 1 ≤ k → k ≤ i → rnd k = rnd2 k) :
    shuffleLoop rnd i a = shuffleLoop rnd2 i a := by
  induction i generalizing a with
  | zero => rfl
  | succ i ih =>
    rw [shuffleLoop_succ, shuffleLoop_succ, h (i + 1) (by omega) (le_refl _)]
    exact ih _ (fun k h1 h2 => h k h1 (by omega))

theorem shuffleLoop_getElem?_above {α : Type} (rnd : Draws) (i : Nat) (a : List α) (k : Nat)
    (hk : i < k) (hi : i ≤ a.length - 1) : (shuffleLoop rnd i a)[k]? = a[k]? := by
  induction i generalizing a with
  | zero => rfl
  | succ i ih =>
    have hj : (rnd (i + 1)).val < i + 2 := (rnd (i + 1)).isLt
    rw [shuffleLoop_succ, ih _ (by omega) (by rw [length_swap]; omega),
      getElem?_swap a (i + 1) _ k (by omega) (by omega)]
    have h1 : ¬ k = (rnd (i + 1)).val := by omega
    have h2 : ¬ k = i + 1 := by omega
    simp [h1, h2]

theorem shuffleLoop_getElem?_top {α : Type} (rnd : Draws) (i : Nat) (a : List α)
    (hi : i + 1 < a.length) :
    (shuffleLoop rnd (i + 1) a)[i + 1]? = a[(rnd (i + 1)).val]? := by
  have hj : (rnd (i + 1)).val < i + 2 := (rnd (i + 1)).isLt
  rw [shuffleLoop_succ, shuffleLoop_getElem?_above rnd i _ (i + 1) (by omega)
      (by rw [length_swap]; omega),
    getElem?_swap a (i + 1) _ (i + 1) (by omega) (by omega)]
  by_cases h : i + 1 = (rnd (i + 1)).val
  · simp [← h]
  · simp [h]

theorem shuffleLoop_injective {α : Type} (rnd rnd2 : Draws) (i : Nat) (a : List α)
    (hnd : a.Nodup) (hi : i ≤ a.length - 1)
    (h : shuffleLoop rnd i a = shuffleLoop rnd2 i a) :
    ∀ k, 1 ≤ k → k ≤ i → rnd k = rnd2 k := by
  induction i generalizing a with
  | zero =>
    intro k h1 h2
    omega
  | succ i ih =>
    have hj : (rnd (i + 1)).val < i + 2 := (rnd (i + 1)).isLt
    have hj2 : (rnd2 (i + 1)).val < i + 2 := (rnd2 (i + 1)).isLt
    have hlt : i + 1 < a.length := by omega
    have hja : (rnd (i + 1)).val < a.length := by omega
    have hja2 : (rnd2 (i + 1)).val < a.length := by omega
    have htop : a[(rnd (i + 1)).val]? = a[(rnd2 (i + 1)).val]? := by
      rw [← shuffleLoop_getElem?_top rnd i a hlt, ← shuffleLoop_getElem?_top rnd2 i a hlt, h]
    rw [List.getElem?_eq_getElem hja, List.getElem?_eq_getElem hja2] at htop
    have hval : (rnd (i + 1)).val = (rnd2 (i + 1)).val :=
      hnd.getElem_inj_iff.mp (Option.some.inj htop)
    have heq : rnd (i + 1) = rnd2 (i + 1) := Fin.ext hval
    rw [shuffleLoop_succ, shuffleLoop_succ, ← heq] at h
    have hrest := ih (swap a (i + 1) (rnd (i + 1)).val)
      ((swap_perm a _ _).nodup_iff.mpr hnd) (by rw [length_swap]; omega) h
    intro k h1 h2
    by_cases hk : k = i + 1
    · rw [hk]
      exact heq
    · exact hrest k h1 (by omega)

theorem eq_of_perm_of_tail_eq {α : Type} (p a : List α) (hp : p.Perm a)
    (hfix : ∀ k, 0 < k → p[k]? = a[k]?) : p = a := by
  match p, a, hp, hfix with
  | [], [], _, _ => rfl
  | [], y :: t, hp, _ => exact absurd hp.length_eq (by simp)
  | x :: t, [], hp, _ => exact absurd hp.length_eq (by simp)
  | x :: t, y :: t2, hp, hfix =>
    have ht : t = t2 := by
      apply List.ext_getElem?
      intro k
      have := hfix (k + 1) (Nat.succ_pos k)
      simpa using this
    subst ht
    have hm : (x ::ₘ (t : Multiset α)) = y ::ₘ (t : Multiset α) := by
      rw [Multiset.cons_coe, Multiset.cons_coe]
      exact Multiset.coe_eq_coe.mpr hp
    rw [(Multiset.cons_inj_left _).mp hm]

theorem shuffleLoop_surjective {α : Type} (i : Nat) (a p : List α) (hnd : a.Nodup)
    (hi : i ≤ a.length - 1) (hp : p.Perm a) (hfix : ∀ k, i < k → p[k]? = a[k]?) :
    ∃ rnd : Draws, shuffleLoop rnd i a = p := by
  induction i generalizing a with
  | zero => exact ⟨zeroDraws, (eq_of_perm_of_tail_eq p a hp hfix).symm⟩
  | succ i ih =>
    have hlen : p.length = a.length := hp.length_eq
    have hlt : i + 1 < a.length := by omega
    have hltp : i + 1 < p.length := by omega
    have hpnd : p.Nodup := hp.nodup_iff.mpr hnd
    have hmem : p[i + 1] ∈ a := hp.subset (List.getElem_mem hltp)
    obtain ⟨j, hja, hj⟩ := List.mem_iff_getElem.mp hmem
    have hjle : j ≤ i + 1 := by
      by_contra hcon
      have hgt : i + 1 < j := by omega
      have h1 : p[j]? = a[j]? := hfix j hgt
      have hjp : j < p.length := by omega
      rw [List.getElem?_eq_getElem hjp, List.getElem?_eq_getElem hja, hj] at h1
      have := hpnd.getElem_inj_iff.mp (Option.some.inj h1)
      omega
    have hfix2 : ∀ k, i < k → p[k]? = (swap a (i + 1) j)[k]? := by
      intro k hk
      rw [getElem?_swap a (i + 1) j k hlt hja]
      by_cases hk1 : k = i + 1
      · subst hk1
        by_cases hkj : i + 1 = j
        · subst hkj
          rw [if_pos rfl, List.getElem?_eq_getElem hja, hj]
          exact List.getElem?_eq_getElem hltp
        · simp only [hkj, if_false, if_true]
          rw [List.getElem?_eq_getElem hja, hj]
          exact List.getElem?_eq_getElem hltp
      · have hkj : ¬ k = j := by omega
        simp only [hkj, hk1, if_false]
        exact hfix k (by omega)
    obtain ⟨rnd0, h0⟩ := ih (swap a (i + 1) j) ((swap_perm a _ _).nodup_iff.mpr hnd)
      (by rw [length_swap]; omega) (hp.trans (swap_perm a _ _).symm) hfix2
    refine ⟨Function.update rnd0 (i + 1) ⟨j, by omega⟩, ?_⟩
    rw [shuffleLoop_succ, Function.update_same]
    rw [shuffleLoop_congr (Function.update rnd0 (i + 1) ⟨j, by omega⟩) rnd0 i _
      (fun k _ h2 => Function.update_noteq (by omega) _ _)]
    exact h0

theorem toDraws_ofDraws (n : Nat) (rnd : Draws) (k : Nat) (h1 : 1 ≤ k) (h2 : k ≤ n - 1) :
    (DrawSeq.ofDraws n rnd).toDraws k = rnd k := by
  match k, h1, h2 with
  | k + 1, _, h2 =>
    have h : k < n - 1 := by omega
    simp [DrawSeq.toDraws, DrawSeq.ofDraws, h]

theorem toDraws_apply {n : Nat} (s : DrawSeq n) (k : Fin (n - 1)) :
    s.toDraws (k.val + 1) = s k := by
  simp [DrawSeq.toDraws, k.isLt]

theorem prod_range_add_two (m : Nat) : (∏ i ∈ Finset.range m, (i + 2)) = (m + 1).factorial := by
  induction m with
  | zero => rfl
  | succ m ih => rw [Finset.prod_range_succ, ih, Nat.factorial_succ (m + 1), Nat.mul_comm]

theorem card_drawSeq (n : Nat) : Fintype.card (DrawSeq n) = n.factorial := by
  rw [Fintype.card_pi]
  simp only [Fintype.card_fin]
  rw [Fin.prod_univ_eq_prod_range (fun i => i + 2) (n - 1), prod_range_add_two]
  cases n with
  | zero => rfl
  | succ n => rfl

theorem shuffle_of_restricted {α : Type} (rnd : Draws) (arr : List α) :
    shuffle rnd arr = shuffle (DrawSeq.ofDraws arr.length rnd).toDraws arr := by
  unfold shuffle
  exact shuffleLoop_congr _ _ _ _
    (fun k h1 h2 => (toDraws_ofDraws arr.length rnd k h1 h2).symm)

theorem shuffle_exists_unique {α : Type} (arr : List α) (hnd : arr.Nodup) (p : List α)
    (hp : p.Perm arr) : ∃! s : DrawSeq arr.length, shuffle s.toDraws arr = p := by
  obtain ⟨rnd, hr⟩ := shuffleLoop_surjective (arr.length - 1) arr p hnd (le_refl _) hp
    (fun k hk => by
      have h1 : arr.length ≤ k := by omega
      rw [List.getElem?_eq_none h1, List.getElem?_eq_none (hp.length_eq ▸ h1)])
  refine ⟨DrawSeq.ofDraws arr.length rnd, ?_, ?_⟩
  · show shuffle (DrawSeq.ofDraws arr.length rnd).toDraws arr = p
    rw [← shuffle_of_restricted]
    exact hr
  · intro s hs
    have hs2 : shuffle s.toDraws arr = p := hs
    have heq : shuffleLoop s.toDraws (arr.length - 1) arr
        = shuffleLoop rnd (arr.length - 1) arr := by
      rw [hr]
      exact hs2
    have hagree := shuffleLoop_injective _ _ _ arr hnd (le_refl _) heq
    funext k
    have hk := hagree (k.val + 1) (by omega) (by have := k.isLt; omega)
    rw [toDraws_apply] at hk
    exact hk

/-- C10: on a list of `n` pairwise distinct elements, `shuffle` returns a permutation of its
input, its result depends only on the draws `j_i`, `0 ≤ j_i ≤ i`, made for
`i = n - 1, ..., 1`, and every permutation of the input is the result of exactly one such
draw sequence; there are `n!` draw sequences.  So with the draw sequences equally likely
each permutation is equally likely.  The input is an immutable value of the model, as
`shuffle` works on the copy `[...arr]`. -/
theorem shuffle_unbiased {α : Type} (arr : List α) (hnd : arr.Nodup) :
    (∀ rnd : Draws, (shuffle rnd arr).Perm arr ∧
        shuffle rnd arr = shuffle (DrawSeq.ofDraws arr.length rnd).toDraws arr) ∧
      (∀ p : List α, p.Perm arr →
        ∃! s : DrawSeq arr.length, shuffle s.toDraws arr = p) ∧
      Fintype.card (DrawSeq arr.length) = arr.length.factorial :=
  ⟨fun rnd => ⟨shuffle_perm rnd arr, shuffle_of_restricted rnd arr⟩,
    fun p hp => shuffle_exists_unique arr hnd p hp, card_drawSeq arr.length⟩

theorem shuffle_unbiased_witness :
    (∀ rnd : Draws, (shuffle rnd [10, 20, 30]).Perm [10, 20, 30] ∧
        shuffle rnd [10, 20, 30]
          = shuffle (DrawSeq.ofDraws [10, 20, 30].length rnd).toDraws [10, 20, 30]) ∧
      (∀ p : List ℕ, p.Perm [10, 20, 30] →
        ∃! s : DrawSeq [10, 20, 30].length, shuffle s.toDraws [10, 20, 30] = p) ∧
      Fintype.card (DrawSeq [10, 20, 30].length) = [10, 20, 30].length.factorial :=
  shuffle_unbiased [10, 20, 30] (by decide)

theorem shuffle_sample :
    shuffle zeroDraws [10, 20, 30] = [20, 30, 10] ∧
      shuffle lastDraws [10, 20, 30] = [10, 20, 30] := by
  decide

end AnonGrading
